import Mathlib

/-!
Verification of the mft_db transform-and-load pipeline.

This file gives a shallow embedding of the core of the repository:
the per-value text-cleaning pipeline and the column coercions of
`dags/tasks/transformer.py`, the packaging-number generators of
`database/database.py`, and the load engine of `dags/tasks/loader.py`
(dataframe validation, entity/junction/breakpoint loading and the
top-level `load_transformed_data` control flow), together with theorems
settling the specification claims about them.

Dataframes are modelled as lists of rows of optional values; database
effects are modelled by an oracle (`Db`) that decides the outcome of
each primitive database operation.
-/

namespace MftDb

/-! ## Character classes used by the text-cleaning pipeline

`clean_text_column` (transformer.py) works through polars string
expressions over Unicode text.  We model strings as `List Char` and the
regex character classes as boolean predicates.  The Cyrillic uppercase
range А-Я is U+0410–U+042F with Ё at U+0401; lowercase а-я is
U+0430–U+044F with ё at U+0451. -/

def isUpperAZ (c : Char) : Bool := 65 ≤ c.toNat && c.toNat ≤ 90

def isLowerAZ (c : Char) : Bool := 97 ≤ c.toNat && c.toNat ≤ 122

def isUpperCyr (c : Char) : Bool :=
  (0x410 ≤ c.toNat && c.toNat ≤ 0x42F) || c.toNat == 0x401

def isLowerCyr (c : Char) : Bool :=
  (0x430 ≤ c.toNat && c.toNat ≤ 0x44F) || c.toNat == 0x451

def isDigitChar (c : Char) : Bool := 48 ≤ c.toNat && c.toNat ≤ 57

/-- The Chinese-character detection ranges of `clean_text_column`:
U+4E00–U+9FFF, U+3400–U+4DBF, U+F900–U+FAFF. -/
def isCJKChar (c : Char) : Bool :=
  (0x4E00 ≤ c.toNat && c.toNat ≤ 0x9FFF) ||
  (0x3400 ≤ c.toNat && c.toNat ≤ 0x4DBF) ||
  (0xF900 ≤ c.toNat && c.toNat ≤ 0xFAFF)

/-- The regex class `[A-ZА-ЯЁ]` of step 3 of the pipeline. -/
def isUpperChar (c : Char) : Bool := isUpperAZ c || isUpperCyr c

def isLetterChar (c : Char) : Bool :=
  isUpperAZ c || isLowerAZ c || isUpperCyr c || isLowerCyr c

/-- Model of Rust `char::is_alphabetic` (used by polars `to_titlecase`)
on the character ranges this development manipulates. -/
def isAlphaChar (c : Char) : Bool := isLetterChar c || isCJKChar c

/-- Whitespace as matched by the regex `\s` and by `str.strip_chars`:
space, tab, newline, carriage return, vertical tab, form feed. -/
def isWSChar (c : Char) : Bool :=
  c.toNat == 32 || c.toNat == 9 || c.toNat == 10 ||
  c.toNat == 13 || c.toNat == 11 || c.toNat == 12

/-- Uppercasing for the Latin and Cyrillic letters (both are at offset
32 from their lowercase form, except ё/Ё). -/
def toUpperChar (c : Char) : Char :=
  if isLowerAZ c then Char.ofNat (c.toNat - 32)
  else if c.toNat == 0x451 then Char.ofNat 0x401
  else if isLowerCyr c then Char.ofNat (c.toNat - 32)
  else c

def toLowerChar (c : Char) : Char :=
  if isUpperAZ c then Char.ofNat (c.toNat + 32)
  else if c.toNat == 0x401 then Char.ofNat 0x451
  else if isUpperCyr c then Char.ofNat (c.toNat + 32)
  else c

/-! ## The text-cleaning pipeline of `clean_text_column`

Steps 2–8 of the polars expression chain in `clean_text_column`
(transformer.py lines 258–279), as functions on `List Char`. -/

/-- Step 2: `str.replace_all "([a-z])([A-Z])" "$1 $2"` — a space between
every adjacent lowercase-Latin / uppercase-Latin pair. -/
def sepCamel : List Char → List Char
  | [] => []
  | [c] => [c]
  | a :: b :: rest =>
    if isLowerAZ a && isUpperAZ b then a :: ' ' :: sepCamel (b :: rest)
    else a :: sepCamel (b :: rest)

/-- Step 3: `str.replace_all "([A-ZА-ЯЁ][^A-ZА-ЯЁ]*)" " $1"`.  The
matches tile the string starting at each uppercase character, so the
replacement inserts a space before every uppercase character. -/
def sepUpper : List Char → List Char
  | [] => []
  | c :: rest =>
    if isUpperChar c then ' ' :: c :: sepUpper rest else c :: sepUpper rest

/-- State of the scanner for step 4's regex `(\d+(?:\.\d+)?)`:
outside a numeric token / inside the integer digits / just after a dot
whose membership in the token is still undecided / inside the fraction
digits. -/
inductive NumState where
  | outN | intN | pendN | fracN
deriving DecidableEq

/-- Step 4: `str.replace_all "(\d+(?:\.\d+)?)" " $1 "` — spaces around
each maximal numeric token (greedy digits, optionally one dot followed
by at least one digit).  Implemented as a left-to-right scanner: a token
opens with an emitted space, closes with an emitted space; a dot after
digits joins the token only when a digit follows it. -/
def sepNumAux : NumState → List Char → List Char
  | .outN, [] => []
  | .intN, [] => [' ']
  | .pendN, [] => [' ', '.']
  | .fracN, [] => [' ']
  | .outN, c :: rest =>
    if isDigitChar c then ' ' :: c :: sepNumAux .intN rest
    else c :: sepNumAux .outN rest
  | .intN, c :: rest =>
    if isDigitChar c then c :: sepNumAux .intN rest
    else if c = '.' then sepNumAux .pendN rest
    else ' ' :: c :: sepNumAux .outN rest
  | .pendN, c :: rest =>
    if isDigitChar c then '.' :: c :: sepNumAux .fracN rest
    else ' ' :: '.' :: c :: sepNumAux .outN rest
  | .fracN, c :: rest =>
    if isDigitChar c then c :: sepNumAux .fracN rest
    else ' ' :: c :: sepNumAux .outN rest

def sepNumbers (l : List Char) : List Char := sepNumAux .outN l

/-- The special-character set of step 5, from the raw Python string
`-)(][.,;:_/\|+*&^%$#@!~(backtick)(dquote)'<>?(braces)` in
`clean_text_column`, as Unicode code points. -/
def specialCodes : List Nat :=
  [45, 41, 40, 93, 91, 46, 44, 59, 58, 95, 47, 92, 124, 43, 42, 38, 94,
   37, 36, 35, 64, 33, 126, 96, 34, 39, 60, 62, 63, 123, 125]

def isSpecialChar (c : Char) : Bool := specialCodes.contains c.toNat

/-- Step 5: `str.replace_all "[<specials>\n\t]" " "` — each special
character, newline or tab becomes one space. -/
def replaceSpecial (l : List Char) : List Char :=
  l.map (fun c =>
    if isSpecialChar c || c.toNat == 10 || c.toNat == 9 then ' ' else c)

/-- Step 6: `str.replace_all "\s+" " "` — each maximal whitespace run
becomes a single space.  The boolean records whether the previous
character was whitespace. -/
def collapseAux : Bool → List Char → List Char
  | _, [] => []
  | prevWS, c :: rest =>
    if isWSChar c then
      if prevWS then collapseAux true rest else ' ' :: collapseAux true rest
    else c :: collapseAux false rest

def collapseWS (l : List Char) : List Char := collapseAux false l

/-- Step 7: `str.strip_chars()` — drop leading and trailing whitespace. -/
def stripWS (l : List Char) : List Char :=
  ((l.dropWhile isWSChar).reverse.dropWhile isWSChar).reverse

/-- Step 8: `str.to_titlecase()` (polars): the first alphabetic
character of each whitespace-delimited word is uppercased, every other
alphabetic character is lowercased; non-alphabetic characters pass
through and do not restart a word. -/
def titleAux : Bool → List Char → List Char
  | _, [] => []
  | cap, c :: rest =>
    if isWSChar c then c :: titleAux true rest
    else if isAlphaChar c then
      (if cap then toUpperChar c else toLowerChar c) :: titleAux false rest
    else c :: titleAux cap rest

def toTitle (l : List Char) : List Char := titleAux true l

def containsChinese (l : List Char) : Bool := l.any isCJKChar

/-- The full per-value pipeline of `clean_text_column`: step 1 (pinyin
transliteration when Chinese characters are present; the transliteration
itself is the external `pypinyin.lazy_pinyin`, taken as a parameter)
followed by steps 2–8. -/
def cleanValue (pinyin : List Char → List Char) (l : List Char) : List Char :=
  let l1 := if !l.isEmpty && containsChinese l then pinyin l else l
  toTitle (stripWS (collapseWS (replaceSpecial (sepNumbers (sepUpper (sepCamel l1))))))

/-! ## Numeric parsing and rounding

`convert_to_float` uses `cast(pl.Float64, strict=False).round(2)` and
`convert_to_int64` uses `cast(pl.Int64, strict=False)`.  Floating-point
columns are modelled as exact rationals; `round(2)` is modelled as
polars' rounding (scale by 100, round half away from zero, divide), and
the float-to-integer cast as truncation toward zero. -/

def ratTruncToInt (q : ℚ) : Int := if 0 ≤ q then ⌊q⌋ else ⌈q⌉

def roundHalfAway (q : ℚ) : Int := if 0 ≤ q then ⌊q + 1/2⌋ else ⌈q - 1/2⌉

def roundTo2 (q : ℚ) : ℚ := (roundHalfAway (q * 100) : ℚ) / 100

def digitsToNat (l : List Char) : Nat :=
  l.foldl (fun acc c => acc * 10 + (c.toNat - 48)) 0

/-- Decimal parser for the string-to-float cast: optional sign, a
nonempty integer part, an optional dot followed by a nonempty fraction.
Anything else (e.g. `"abc"`) fails and becomes null under
`strict=False`. -/
def parseUnsignedFloat (l : List Char) : Option ℚ :=
  let intPart := l.takeWhile isDigitChar
  let rest := l.dropWhile isDigitChar
  if intPart.isEmpty then none
  else
    match rest with
    | [] => some (digitsToNat intPart)
    | '.' :: fracs =>
      if !fracs.isEmpty && fracs.all isDigitChar then
        some ((digitsToNat intPart : ℚ) + (digitsToNat fracs : ℚ) / (10 ^ fracs.length))
      else none
    | _ => none

def parseFloatChars : List Char → Option ℚ
  | '-' :: rest => (parseUnsignedFloat rest).map (fun q => -q)
  | '+' :: rest => parseUnsignedFloat rest
  | l => parseUnsignedFloat l

/-- Integer-literal parser for the string-to-Int64 cast: optional sign
and nonempty digits; anything else becomes null under `strict=False`. -/
def parseIntChars : List Char → Option Int
  | '-' :: rest =>
    if !rest.isEmpty && rest.all isDigitChar then some (-(digitsToNat rest : Int)) else none
  | '+' :: rest =>
    if !rest.isEmpty && rest.all isDigitChar then some (digitsToNat rest : Int) else none
  | l => if !l.isEmpty && l.all isDigitChar then some (digitsToNat l : Int) else none

/-! ## Dataframe model

A polars DataFrame is modelled as named, typed columns over rows of
optional values (`none` is polars `null`). -/

inductive Val where
  | vi : Int → Val
  | vf : ℚ → Val
  | vs : String → Val
  | vb : Bool → Val
deriving DecidableEq

abbrev Cell := Option Val

inductive Dtype where
  | int64 | float64 | utf8 | boolean
deriving DecidableEq

structure DFrame where
  cols : List String
  dtypes : List Dtype
  rows : List (List Cell)
deriving DecidableEq

def colIndex (df : DFrame) (c : String) : Option Nat :=
  df.cols.findIdx? (fun n => n == c)

def hasCol (df : DFrame) (c : String) : Bool := df.cols.contains c

def getCol (df : DFrame) (c : String) : List Cell :=
  match colIndex df c with
  | some i => df.rows.map (fun r => r.getD i none)
  | none => []

def dtypeOf (df : DFrame) (c : String) : Option Dtype :=
  (colIndex df c).bind (fun i => df.dtypes.get? i)

/-- `df.select(names)`: project the named columns, in order. -/
def selectRows (df : DFrame) (names : List String) : List (List Cell) :=
  df.rows.map (fun r =>
    names.map (fun c =>
      match colIndex df c with
      | some i => r.getD i none
      | none => none))

/-- `df[col].null_count()`. -/
def nullCount (df : DFrame) (c : String) : Nat :=
  ((getCol df c).filter (fun x => x = none)).length

/-- Rewrite one column in place (`with_columns(expr.alias(col))`),
updating its dtype. -/
def castColumn (df : DFrame) (c : String) (dt : Dtype) (f : Cell → Cell) : DFrame :=
  match colIndex df c with
  | some i =>
    ⟨df.cols, df.dtypes.set i dt, df.rows.map (fun r => r.set i (f (r.getD i none)))⟩
  | none => df

/-- `drop_nulls()`: keep the rows with no null cell. -/
def dropNullRows (rows : List (List Cell)) : List (List Cell) :=
  rows.filter (fun r => r.all Option.isSome)

/-- `unique(keep='first')` on whole rows. -/
def dedupAux {α : Type} [DecidableEq α] (seen : List α) : List α → List α
  | [] => []
  | a :: rest =>
    if a ∈ seen then dedupAux seen rest else a :: dedupAux (a :: seen) rest

def dedupKeepFirst {α : Type} [DecidableEq α] (l : List α) : List α :=
  dedupAux [] l

/-- `unique(subset=[pk], keep='first')`: dedup rows by the cell of one
column index. -/
def dedupByKeyAux (i : Nat) (seen : List Cell) : List (List Cell) → List (List Cell)
  | [] => []
  | r :: rest =>
    if r.getD i none ∈ seen then dedupByKeyAux i seen rest
    else r :: dedupByKeyAux i (r.getD i none :: seen) rest

def dedupByKey (df : DFrame) (pk : String) : DFrame :=
  match colIndex df pk with
  | some i => ⟨df.cols, df.dtypes, dedupByKeyAux i [] df.rows⟩
  | none => df

/-- Python `dict` lookup on an association list. -/
def dictLookup {α : Type} (k : String) : List (String × α) → Option α
  | [] => none
  | (k', v) :: rest => if k' = k then some v else dictLookup k rest

/-! ## Column coercions of transformer.py -/

def cellToFloat : Cell → Option ℚ
  | none => none
  | some (.vf q) => some q
  | some (.vi n) => some (n : ℚ)
  | some (.vs s) => parseFloatChars s.data
  | some (.vb b) => some (if b then 1 else 0)

/-- `convert_to_float`: `cast(pl.Float64, strict=False).round(2)`;
unparseable values become null, nulls stay null. -/
def convert_to_float (df : DFrame) (col : String) : DFrame :=
  castColumn df col .float64 (fun cell =>
    (cellToFloat cell).map (fun q => Val.vf (roundTo2 q)))

def castValInt : Cell → Cell
  | none => none
  | some (.vi n) => some (.vi n)
  | some (.vf q) => some (.vi (ratTruncToInt q))
  | some (.vs s) => (parseIntChars s.data).map .vi
  | some (.vb b) => some (.vi (if b then 1 else 0))

/-- `convert_to_int64`: `cast(pl.Int64, strict=False)`. -/
def convert_to_int64 (df : DFrame) (col : String) : DFrame :=
  castColumn df col .int64 castValInt

/-- Python `str()` of a scalar, used only inside description strings
(the rational rendering is a simplification of the float repr). -/
def pyValStr : Val → String
  | .vs s => s
  | .vi n => toString n
  | .vf q => toString q
  | .vb b => if b then "True" else "False"

def castValStr : Cell → Cell
  | none => none
  | some (.vs s) => some (.vs s)
  | some v => some (.vs (pyValStr v))

/-- `convert_to_string`: `cast(pl.Utf8, strict=False)`, preserving
nulls. -/
def convert_to_string (df : DFrame) (col : String) : DFrame :=
  castColumn df col .utf8 castValStr

/-- `clean_text_column` at dataframe level: apply the per-value pipeline
to every string cell of the column, preserving nulls. -/
def clean_text_column (pinyin : List Char → List Char) (df : DFrame) (col : String) : DFrame :=
  castColumn df col .utf8 (fun cell =>
    cell.map (fun v =>
      match v with
      | .vs s => .vs (String.mk (cleanValue pinyin s.data))
      | v => v))

/-- `apply_transformations`: apply each (column, function) pair in
order; a column absent from the frame is skipped; the functions catch
their own errors, so the loop is total. -/
def apply_transformations (df : DFrame)
    (transformations : List (String × (DFrame → String → DFrame))) : DFrame :=
  transformations.foldl
    (fun acc p => if hasCol acc p.1 then p.2 acc p.1 else acc) df

/-! ## The transformer's per-dataframe transformation tables
(transformer.py lines 419–530). -/

def main_df_transformations (pinyin : List Char → List Char) :
    List (String × (DFrame → String → DFrame)) :=
  [("PART_NUMBER", convert_to_string),
   ("PART_NAME", clean_text_column pinyin),
   ("PART_WEIGHT_KG", convert_to_float),
   ("PART_PER_VEHICLE", convert_to_int64),
   ("CONFIGURATION", convert_to_string),
   ("MODEL_CODE", convert_to_string),
   ("MODEL_NAME", convert_to_string),
   ("LINE_CODE", convert_to_string),
   ("LINE_NAME", convert_to_string),
   ("WORKSHOP_CODE", convert_to_string),
   ("WORKSHOP_NAME", convert_to_string),
   ("PART_PER_BOX", convert_to_int64),
   ("BOX_NUMBER", convert_to_string),
   ("BOX_TYPE", convert_to_string),
   ("BOX_WEIGHT_KG", convert_to_float),
   ("BOX_LENGTH_MM", convert_to_int64),
   ("BOX_WIDTH_MM", convert_to_int64),
   ("BOX_HEIGHT_MM", convert_to_int64),
   ("BOX_VOL_M3", convert_to_float),
   ("BOX_AREA_M2", convert_to_float),
   ("BOX_STACKING", convert_to_int64),
   ("BOX_PER_PALLET", convert_to_int64),
   ("PALLET_NUMBER", convert_to_string),
   ("PALLET_TYPE", convert_to_string),
   ("PALLET_WEIGHT_KG", convert_to_float),
   ("PALLET_LENGTH_MM", convert_to_int64),
   ("PALLET_WIDTH_MM", convert_to_int64),
   ("PALLET_HEIGHT_MM", convert_to_int64),
   ("PALLET_VOL_M3", convert_to_float),
   ("PALLET_AREA_M2", convert_to_float),
   ("PALLET_STACKING", convert_to_int64),
   ("SUPPLIER_NAME", clean_text_column pinyin),
   ("LOCATION", convert_to_string),
   ("CITY", convert_to_string),
   ("STREET", convert_to_string),
   ("BUILDING", convert_to_string),
   ("LOCALIZATION", convert_to_string)]

def supplier_df_transformations (pinyin : List Char → List Char) :
    List (String × (DFrame → String → DFrame)) :=
  [("SUPPLIER_NAME", clean_text_column pinyin),
   ("LOCATION", convert_to_string),
   ("CITY", convert_to_string),
   ("STREET", convert_to_string),
   ("BUILDING", convert_to_string),
   ("LOCALIZATION", convert_to_string)]

def part_df_transformations (pinyin : List Char → List Char) :
    List (String × (DFrame → String → DFrame)) :=
  [("PART_NUMBER", convert_to_string),
   ("PART_NAME", clean_text_column pinyin),
   ("PART_WEIGHT_KG", convert_to_float)]

def box_df_transformations :
    List (String × (DFrame → String → DFrame)) :=
  [("BOX_NUMBER", convert_to_string),
   ("BOX_TYPE", convert_to_string),
   ("BOX_WEIGHT_KG", convert_to_float),
   ("BOX_LENGTH_MM", convert_to_int64),
   ("BOX_WIDTH_MM", convert_to_int64),
   ("BOX_HEIGHT_MM", convert_to_int64),
   ("BOX_VOL_M3", convert_to_float),
   ("BOX_AREA_M2", convert_to_float),
   ("BOX_STACKING", convert_to_int64)]

def pallet_df_transformations :
    List (String × (DFrame → String → DFrame)) :=
  [("PALLET_NUMBER", convert_to_string),
   ("PALLET_TYPE", convert_to_string),
   ("PALLET_WEIGHT_KG", convert_to_float),
   ("PALLET_LENGTH_MM", convert_to_int64),
   ("PALLET_WIDTH_MM", convert_to_int64),
   ("PALLET_HEIGHT_MM", convert_to_int64),
   ("PALLET_VOL_M3", convert_to_float),
   ("PALLET_AREA_M2", convert_to_float),
   ("PALLET_STACKING", convert_to_int64)]

def model_df_transformations :
    List (String × (DFrame → String → DFrame)) :=
  [("MODEL_CODE", convert_to_string), ("MODEL_NAME", convert_to_string)]

def workshop_df_transformations :
    List (String × (DFrame → String → DFrame)) :=
  [("WORKSHOP_CODE", convert_to_string), ("WORKSHOP_NAME", convert_to_string)]

def line_df_transformations :
    List (String × (DFrame → String → DFrame)) :=
  [("LINE_CODE", convert_to_string), ("LINE_NAME", convert_to_string)]

/-- The processing list of `transformer()` (source name, transformation
table, result key) — transformer.py lines 521–530. -/
def dataframes_to_process (pinyin : List Char → List Char) :
    List (String × List (String × (DFrame → String → DFrame)) × String) :=
  [("main_df", main_df_transformations pinyin, "transformed_main_df"),
   ("supplier_df", supplier_df_transformations pinyin, "transformed_supplier_df"),
   ("part_df", part_df_transformations pinyin, "transformed_part_df"),
   ("box_df", box_df_transformations, "transformed_box_df"),
   ("pallet_df", pallet_df_transformations, "transformed_pallet_df"),
   ("model_df", model_df_transformations, "transformed_model_df"),
   ("workshop_df", workshop_df_transformations, "transformed_workshop_df"),
   ("line_df", line_df_transformations, "transformed_line_df")]

/-- The result dictionary built by `transformer()` from the extractor's
dictionary: for each processing entry whose source dataframe is present,
store under the `transformed_<name>` result key either the original
dataframe (when it is empty) or the transformed one; absent source
dataframes are skipped without producing a key. -/
def transformer (pinyin : List Char → List Char)
    (extracted : List (String × DFrame)) : List (String × DFrame) :=
  (dataframes_to_process pinyin).filterMap (fun p =>
    (dictLookup p.1 extracted).map (fun df =>
      (p.2.2, if df.rows.isEmpty then df else apply_transformations df p.2.1)))

/-! ## Packaging-number generation (database/database.py)

`generate_box_number` / `generate_pallet_number` read the type and
dimension parameters of the pending insert (a missing or null parameter
is `none`) and format `"<A|B> <length>-<width>-<height>"`. -/

def generate_box_number (boxType : Option String)
    (length width height : Int) : String :=
  (if boxType = some "non-returnable" then "A" else "B") ++ " " ++
    toString length ++ "-" ++ toString width ++ "-" ++ toString height

def generate_pallet_number (palletType : Option String)
    (length width height : Int) : String :=
  (if palletType = some "non-returnable" then "A" else "B") ++ " " ++
    toString length ++ "-" ++ toString width ++ "-" ++ toString height

/-! ## The load engine (dags/tasks/loader.py)

Database effects are modelled by an oracle deciding the outcome of each
primitive operation: `none` means the operation succeeds, `some msg`
means it raises with that message.  `enableFail k` is the outcome of
the k-th call (0-based) to `enable_foreign_keys` within one run;
`tableCount t = none` means the count query for table `t` fails (the
code then records 0). -/

structure Db where
  truncateFail : String → Option String
  insertFail : String → Option String
  disableFail : Option String
  enableFail : Nat → Option String
  tableCount : String → Option Nat

abbrev DfDict := List (String × DFrame)

/-- `validate_transformed_data` (loader.py lines 158–185): all required
keys present, and the critical frames non-empty. -/
def required_df_keys : List String :=
  ["transformed_main_df", "transformed_part_df", "transformed_supplier_df",
   "transformed_box_df", "transformed_pallet_df", "transformed_model_df",
   "transformed_workshop_df", "line_df"]

def critical_df_keys : List String :=
  ["transformed_main_df", "transformed_part_df"]

def validate_transformed_data (d : DfDict) : Bool :=
  required_df_keys.all (fun k => (dictLookup k d).isSome) &&
  critical_df_keys.all (fun k =>
    match dictLookup k d with
    | some df => !df.rows.isEmpty
    | none => false)

/-- `truncate_table`: raises exactly when the oracle says so (a missing
table is only a logged warning). -/
def truncate_table (db : Db) (tableName : String) : Except String Unit :=
  match db.truncateFail tableName with
  | some e => .error e
  | none => .ok ()

/-- `bulk_insert_dataframe` on a row list: an empty frame inserts
nothing; otherwise the insert either succeeds (returning the record
count) or raises. -/
def bulk_insert_rows (db : Db) (rows : List (List Cell)) (tableName : String) :
    Except String Nat :=
  if rows.isEmpty then .ok 0
  else
    match db.insertFail tableName with
    | some e => .error e
    | none => .ok rows.length

/-- `load_entity_table` (loader.py lines 329–374): empty frame loads 0;
a missing or null-containing primary key raises `ValueError`; otherwise
dedup by primary key, optionally truncate, bulk insert. -/
def load_entity_table (db : Db) (df : DFrame) (tableName pk : String)
    (truncate : Bool) : Except String Nat :=
  if df.rows.isEmpty then .ok 0
  else if !hasCol df pk then .error ("Missing primary key: " ++ pk)
  else if 0 < nullCount df pk then .error ("NULL values in primary key: " ++ pk)
  else
    let df' := dedupByKey df pk
    match (if truncate then truncate_table db tableName else .ok ()) with
    | .error e => .error e
    | .ok _ => bulk_insert_rows db df'.rows tableName

/-- The dataframe-key → (table, primary key) mapping of
`load_all_entity_tables` (loader.py lines 391–399). -/
def entity_mapping : List (String × String × String) :=
  [("transformed_supplier_df", "supplier_data", "supplier_id"),
   ("transformed_part_df", "part_data", "part_id"),
   ("transformed_box_df", "box_data", "box_id"),
   ("transformed_pallet_df", "pallet_data", "pallet_id"),
   ("transformed_model_df", "model_data", "model_id"),
   ("transformed_workshop_df", "workshop_data", "workshop_id"),
   ("line_df", "line_data", "line_id")]

/-- `load_all_entity_tables` (loader.py lines 377–418): for each mapped
key that is present in the input dictionary, record the loaded count
under the table name, or 0 when loading that table raised; an absent
key produces no entry at all. -/
def load_all_entity_tables (db : Db) (d : DfDict) (truncate : Bool) :
    List (String × Nat) :=
  entity_mapping.filterMap (fun m =>
    (dictLookup m.1 d).map (fun df =>
      (m.2.1,
        match load_entity_table db df m.2.1 m.2.2 truncate with
        | .ok n => n
        | .error _ => 0)))

/-- The junction derivation of `load_junction_table` (loader.py lines
443–468): project the foreign-key columns, drop nulls, dedup whole rows
keeping the first, cast every column whose dtype is not Int64 to Int64
(`strict=False`), then drop the nulls produced by the cast.  A frame
with missing key columns yields no rows. -/
def junctionRows (main : DFrame) (foreign_keys : List String) :
    List (List Cell) :=
  if foreign_keys.any (fun fk => !hasCol main fk) then []
  else
    let j1 := dedupKeepFirst (dropNullRows (selectRows main foreign_keys))
    let mask := foreign_keys.map (fun fk => decide (dtypeOf main fk ≠ some .int64))
    let j2 := j1.map (fun r =>
      List.zipWith (fun b c => if b then castValInt c else c) mask r)
    dropNullRows j2

/-- `load_junction_table` (loader.py lines 421–478). -/
def load_junction_table (db : Db) (main : DFrame) (tableName : String)
    (foreign_keys : List String) (truncate : Bool) : Except String Nat :=
  if foreign_keys.any (fun fk => !hasCol main fk) then .ok 0
  else
    let j := junctionRows main foreign_keys
    if j.isEmpty then .ok 0
    else
      match (if truncate then truncate_table db tableName else .ok ()) with
      | .error e => .error e
      | .ok _ => bulk_insert_rows db j tableName

def junction_definitions : List (String × List String) :=
  [("part_to_box", ["part_id", "box_id"]),
   ("box_to_pallet", ["box_id", "pallet_id"]),
   ("part_to_model", ["part_id", "model_id"]),
   ("part_to_line", ["part_id", "line_id"])]

/-- `load_all_junction_tables` (loader.py lines 481–519): an empty main
frame yields an empty result dictionary; each junction load that raises
is caught and recorded as 0. -/
def load_all_junction_tables (db : Db) (main : DFrame) (truncate : Bool) :
    List (String × Nat) :=
  if main.rows.isEmpty then []
  else
    junction_definitions.map (fun jd =>
      (jd.1,
        match load_junction_table db main jd.1 jd.2 truncate with
        | .ok n => n
        | .error _ => 0))

/-! ### Breakpoint derivation (loader.py lines 522–574) -/

structure BreakpointRow where
  breakpoint_id : Nat
  breakpoint_date : Cell
  description : String
  old_part_id : Cell
  new_part_id : Cell
deriving DecidableEq

structure PartToBreakpointRow where
  part_id : Cell
  breakpoint_id : Nat
  is_active_before_breakpoint : Bool
  is_active_after_breakpoint : Bool
deriving DecidableEq

def breakpoint_cols : List String :=
  ["breakpoint_date", "old_part_id", "new_part_id"]

/-- The unique non-null (breakpoint_date, old_part_id, new_part_id)
triples: `main_df.select(...).drop_nulls().unique(keep='first')`. -/
def uniqueBreakpointTriples (main : DFrame) : List (List Cell) :=
  dedupKeepFirst (dropNullRows (selectRows main breakpoint_cols))

def breakpointDescription (t : List Cell) : String :=
  "Change: " ++ ((t.getD 1 none).map pyValStr).getD "" ++ " â†’ " ++
    ((t.getD 2 none).map pyValStr).getD ""

/-- The enumeration loop of `extract_breakpoint_data`: triple i (1-based)
yields one breakpoint record and the old-part/new-part pair of
part-to-breakpoint records. -/
def mkBreakpointRows : Nat → List (List Cell) →
    List BreakpointRow × List PartToBreakpointRow
  | _, [] => ([], [])
  | i, t :: rest =>
    let (bs, ps) := mkBreakpointRows (i + 1) rest
    (⟨i, t.getD 0 none, breakpointDescription t, t.getD 1 none, t.getD 2 none⟩ :: bs,
     ⟨t.getD 1 none, i, true, false⟩ :: ⟨t.getD 2 none, i, false, true⟩ :: ps)

/-- `extract_breakpoint_data` (loader.py lines 522–574): empty output
when the three source columns are not all present or no complete triple
exists; otherwise the enumerated records starting at id 1. -/
def extract_breakpoint_data (main : DFrame) :
    List BreakpointRow × List PartToBreakpointRow :=
  if breakpoint_cols.any (fun c => !hasCol main c) then ([], [])
  else
    let u := uniqueBreakpointTriples main
    if u.isEmpty then ([], [])
    else mkBreakpointRows 1 u

/-- The body of `load_breakpoint_data` up to its `except` handler. -/
def load_breakpoint_body (db : Db) (main : DFrame) (truncate : Bool) :
    Except String (List (String × Nat)) :=
  let (bdf, pdf) := extract_breakpoint_data main
  if bdf.isEmpty then .ok [("breakpoint_data", 0), ("part_to_breakpoint", 0)]
  else
    match (if truncate then truncate_table db "breakpoint_data" else .ok ()) with
    | .error e => .error e
    | .ok _ =>
      match db.insertFail "breakpoint_data" with
      | some e => .error e
      | none =>
        if pdf.isEmpty then .ok [("breakpoint_data", bdf.length)]
        else
          match (if truncate then truncate_table db "part_to_breakpoint" else .ok ()) with
          | .error e => .error e
          | .ok _ =>
            match db.insertFail "part_to_breakpoint" with
            | some e => .error e
            | none =>
              .ok [("breakpoint_data", bdf.length),
                   ("part_to_breakpoint", pdf.length)]

/-- `load_breakpoint_data` (loader.py lines 577–625): any raise inside
the body is caught and replaced by zero counts. -/
def load_breakpoint_data (db : Db) (main : DFrame) (truncate : Bool) :
    List (String × Nat) :=
  match load_breakpoint_body db main truncate with
  | .ok r => r
  | .error _ => [("breakpoint_data", 0), ("part_to_breakpoint", 0)]

/-- `verify_table_counts` (loader.py lines 628–660): count every known
table; a failing count query contributes 0. -/
def all_tables : List String :=
  ["supplier_data", "part_data", "box_data", "pallet_data",
   "model_data", "workshop_data", "line_data", "breakpoint_data",
   "part_to_box", "box_to_pallet", "part_to_model",
   "part_to_line", "part_to_breakpoint"]

def verify_table_counts (db : Db) : List (String × Nat) :=
  all_tables.map (fun t => (t, (db.tableCount t).getD 0))

/-! ### `load_transformed_data` (loader.py lines 663–786) -/

/-- The `transformed_df_dict` argument: a dictionary, a value of some
other Python type (whose type name is recorded), or absent. -/
inductive InputArg where
  | dictArg : DfDict → InputArg
  | notDict : String → InputArg

structure StepResults where
  entity_tables : Option (List (String × Nat))
  junction_tables : Option (List (String × Nat))
  breakpoint_data : Option (List (String × Nat))
deriving DecidableEq

structure LoadResults where
  success : Bool
  record_counts : List (String × Nat)
  step_results : StepResults
  error : Option String
deriving DecidableEq

/-- The input-resolution prologue of `load_transformed_data` (lines
694–720): an explicitly passed non-dict raises; with no explicit data,
`use_transformer` decides between calling `transformer()` (whose result
must be a dict) and raising. -/
def resolveInput (input : Option InputArg) (use_transformer : Bool)
    (transformerResult : InputArg) : Except String DfDict :=
  match input with
  | some (.dictArg d) => .ok d
  | some (.notDict ty) =>
    .error ("transformed_df_dict should be dict, got " ++ ty)
  | none =>
    if use_transformer then
      match transformerResult with
      | .dictArg d => .ok d
      | .notDict ty => .error ("transformer() returned " ++ ty ++ ", expected dict")
    else
      .error "No data provided. Either pass transformed_df_dict or set use_transformer=True"

def emptyDFrame : DFrame := ⟨[], [], []⟩

def sumCounts (l : List (String × Nat)) : Nat := (l.map Prod.snd).sum

/-- `load_transformed_data`.  Returns the results dictionary together
with the number of calls made to `enable_foreign_keys` during the run.
Control flow of the source: a prologue failure is caught by the
top-level `except`, which records the error and makes one (swallowed)
restoration attempt; a validation failure returns early; otherwise the
three loading phases run (each is total: all their internal errors are
caught), the `finally` block calls `enable_foreign_keys`, and if that
call raises, the top-level `except` records the restoration error as
the run's error and calls `enable_foreign_keys` once more, its own
failure being swallowed. -/
def load_transformed_data (db : Db) (input : Option InputArg)
    (truncate_before_load use_transformer : Bool)
    (transformerResult : InputArg) : LoadResults × Nat :=
  match resolveInput input use_transformer transformerResult with
  | .error e =>
    ({ success := false, record_counts := [],
       step_results := ⟨none, none, none⟩, error := some e }, 1)
  | .ok d =>
    if !validate_transformed_data d then
      ({ success := false, record_counts := [],
         step_results := ⟨none, none, none⟩,
         error := some "Data validation failed" }, 0)
    else
      -- disable_foreign_keys: its failure is only logged, never raised
      let main := (dictLookup "transformed_main_df" d).getD emptyDFrame
      let eres := load_all_entity_tables db d truncate_before_load
      let jres := load_all_junction_tables db main truncate_before_load
      let bres := load_breakpoint_data db main truncate_before_load
      let steps : StepResults := ⟨some eres, some jres, some bres⟩
      match db.enableFail 0 with
      | some e =>
        ({ success := false, record_counts := [], step_results := steps,
           error := some e }, 2)
      | none =>
        let counts := verify_table_counts db
        ({ success := 0 < sumCounts counts, record_counts := counts,
           step_results := steps, error := none }, 1)

/-! ## Canonical cleaned form

Auxiliary notions used to settle the idempotence claim about
`cleanValue`: plain characters (letters, digits, space), the
decomposition of a string into whitespace-separated words, and the shape
of the words `cleanValue` produces on plain input (all-digit words, or
letter words with an uppercase head and lowercase tail). -/

def isLowerLetterChar (c : Char) : Bool := isLowerAZ c || isLowerCyr c

def isPlainChar (c : Char) : Bool :=
  isLetterChar c || isDigitChar c || c = ' '

def wordAllDigits (u : List Char) : Bool := !u.isEmpty && u.all isDigitChar

def wordTitleCased : List Char → Bool
  | [] => false
  | c :: cs => isUpperChar c && cs.all isLowerLetterChar

def isCanonWord (u : List Char) : Bool := wordAllDigits u || wordTitleCased u

def joinWords : List (List Char) → List Char
  | [] => []
  | [u] => u
  | u :: rest => u ++ ' ' :: joinWords rest

def notWS (c : Char) : Bool := !isWSChar c

/-- The head of `l` is not an uppercase Latin letter (vacuously true for
the empty list). -/
def headNotUpperAZ (l : List Char) : Prop :=
  ∀ b l', l = b :: l' → isUpperAZ b = false

/-- Adjacent characters are compatible with the number-separation pass:
a digit is never adjacent to a non-digit other than a space. -/
def sepOK (a b : Char) : Prop :=
  (isDigitChar a = true → isDigitChar b = true ∨ b = ' ') ∧
  (isDigitChar b = true → isDigitChar a = true ∨ a = ' ')

/-- The effect of polars title casing on one whitespace-free word that
is either all digits or all letters. -/
def titlecaseWord (u : List Char) : List Char :=
  if u.all isDigitChar then u
  else
    match u with
    | [] => []
    | h :: t => toUpperChar h :: List.map toLowerChar t

def wordsOf : List Char → List (List Char)
  | [] => []
  | c :: rest =>
    if isWSChar c then wordsOf rest
    else (c :: rest.takeWhile notWS) :: wordsOf (rest.dropWhile notWS)
termination_by l => l.length
decreasing_by
  · simp
  · simp only [List.length_cons]
    exact Nat.lt_succ_of_le (List.dropWhile_sublist notWS).length_le

/-! ## Concrete fixtures used by witnesses and counterexamples -/

/-- A one-row, one-column dataframe (a minimal non-empty frame). -/
def tinyDF : DFrame := ⟨["X"], [.utf8], [[some (.vs "v")]]⟩

/-- An extractor result containing all eight source dataframes. -/
def extractedAll : List (String × DFrame) :=
  [("main_df", tinyDF), ("supplier_df", tinyDF), ("part_df", tinyDF),
   ("box_df", tinyDF), ("pallet_df", tinyDF), ("model_df", tinyDF),
   ("workshop_df", tinyDF), ("line_df", tinyDF)]

/-- A transformed-data dictionary that passes `validate_transformed_data`. -/
def validDict : DfDict :=
  [("transformed_main_df", tinyDF), ("transformed_part_df", tinyDF),
   ("transformed_supplier_df", tinyDF), ("transformed_box_df", tinyDF),
   ("transformed_pallet_df", tinyDF), ("transformed_model_df", tinyDF),
   ("transformed_workshop_df", tinyDF), ("line_df", tinyDF)]

/-- A database oracle on which every primitive operation succeeds. -/
def dbBenign : Db :=
  ⟨fun _ => none, fun _ => none, none, fun _ => none, fun _ => some 1⟩

/-- A database oracle on which every `enable_foreign_keys` call fails. -/
def dbEnableFails : Db :=
  ⟨fun _ => none, fun _ => none, none, fun _ => some "enable failed", fun _ => some 1⟩

/-- The input column of the float-coercion scenario: `"BOX_WEIGHT_KG"`
with values `["12.345", "abc", None]`. -/
def weightScenarioDF : DFrame :=
  ⟨["BOX_WEIGHT_KG"], [.utf8],
   [[some (.vs "12.345")], [some (.vs "abc")], [none]]⟩

/-- A main frame whose two string key tuples ("1","2") and ("01","2")
are distinct before integer coercion but identical after it. -/
def strKeysDF : DFrame :=
  ⟨["part_id", "box_id"], [.utf8, .utf8],
   [[some (.vs "1"), some (.vs "2")], [some (.vs "01"), some (.vs "2")]]⟩

/-- A main frame whose key columns are already Int64, with a duplicate
tuple and a null key. -/
def intKeysDF : DFrame :=
  ⟨["part_id", "box_id"], [.int64, .int64],
   [[some (.vi 1), some (.vi 2)], [some (.vi 1), some (.vi 2)],
    [none, some (.vi 9)]]⟩

/-- `validDict` with the supplier entry removed. -/
def dictNoSupplier : DfDict :=
  [("transformed_main_df", tinyDF), ("transformed_part_df", tinyDF),
   ("transformed_box_df", tinyDF),
   ("transformed_pallet_df", tinyDF), ("transformed_model_df", tinyDF),
   ("transformed_workshop_df", tinyDF), ("line_df", tinyDF)]

/-- A main frame with the three breakpoint columns: one duplicated
triple and one further triple. -/
def breakpointScenarioDF : DFrame :=
  ⟨["breakpoint_date", "old_part_id", "new_part_id"],
   [.utf8, .int64, .int64],
   [[some (.vs "2025-01-01"), some (.vi 1), some (.vi 2)],
    [some (.vs "2025-01-01"), some (.vi 1), some (.vi 2)],
    [some (.vs "2025-02-01"), some (.vi 3), some (.vi 4)]]⟩

/-! # Theorems -/

/-! ## C6 and C10: packaging-number generation -/

/-- C6: the packaging number is a pure, deterministic function of
(type, length, width, height): for all dimension triples,
`generate_box_number` and `generate_pallet_number` return
`"<A|B> <length>-<width>-<height>"` with prefix `A` for non-returnable
and `B` for returnable, and recomputing from the same inputs yields an
identical string. -/
theorem c6_packaging_number_deterministic_format :
    ∀ l w h : Int,
      generate_box_number (some "non-returnable") l w h =
        "A " ++ toString l ++ "-" ++ toString w ++ "-" ++ toString h ∧
      generate_box_number (some "returnable") l w h =
        "B " ++ toString l ++ "-" ++ toString w ++ "-" ++ toString h ∧
      generate_pallet_number (some "non-returnable") l w h =
        "A " ++ toString l ++ "-" ++ toString w ++ "-" ++ toString h ∧
      generate_pallet_number (some "returnable") l w h =
        "B " ++ toString l ++ "-" ++ toString w ++ "-" ++ toString h ∧
      (∀ t : Option String,
        generate_box_number t l w h = generate_box_number t l w h ∧
        generate_pallet_number t l w h = generate_pallet_number t l w h) := by
  intro l w h
  refine ⟨?_, ?_, ?_, ?_, fun t => ⟨rfl, rfl⟩⟩ <;>
    simp [generate_box_number, generate_pallet_number, String.append_assoc]

/-- C10: the packaging-number type letter is `A` exactly when the type
parameter equals `"non-returnable"`; every other value — null/missing
(`none`) or any unrecognized string — silently yields a `B`-numbered
(returnable-looking) packaging number rather than an error. -/
theorem c10_type_letter_defaults_to_b (t : Option String) (l w h : Int) :
    (t = some "non-returnable" →
      generate_box_number t l w h =
        "A " ++ toString l ++ "-" ++ toString w ++ "-" ++ toString h ∧
      generate_pallet_number t l w h =
        "A " ++ toString l ++ "-" ++ toString w ++ "-" ++ toString h) ∧
    (t ≠ some "non-returnable" →
      generate_box_number t l w h =
        "B " ++ toString l ++ "-" ++ toString w ++ "-" ++ toString h ∧
      generate_pallet_number t l w h =
        "B " ++ toString l ++ "-" ++ toString w ++ "-" ++ toString h) := by
  constructor
  · intro ht
    subst ht
    constructor <;>
      simp [generate_box_number, generate_pallet_number, String.append_assoc]
  · intro ht
    constructor <;>
      simp [generate_box_number, generate_pallet_number, ht, String.append_assoc]

/-- Witness for C10 at concrete inputs: a null type and an unrecognized
type both produce a `B` number. -/
theorem c10_type_letter_defaults_to_b_witness :
    generate_box_number none 1340 560 440 = "B 1340-560-440" ∧
    generate_pallet_number (some "garbage") 1 2 3 = "B 1-2-3" := by
  refine ⟨?_, ?_⟩
  · have h := (c10_type_letter_defaults_to_b none 1340 560 440).2 (by decide)
    exact h.1.trans (by decide)
  · have h := (c10_type_letter_defaults_to_b (some "garbage") 1 2 3).2 (by decide)
    exact h.2.trans (by decide)

/-! ## C7: the float-coercion scenario -/

/-- C7: applying `convert_to_float` to a `"BOX_WEIGHT_KG"` column with
values `["12.345", "abc", None]` yields exactly `[12.35, None, None]`:
the parseable value is rounded to two decimals, the unparseable value
becomes null, and null stays null. -/
theorem c7_float_coercion_scenario :
    convert_to_float weightScenarioDF "BOX_WEIGHT_KG" =
      ⟨["BOX_WEIGHT_KG"], [.float64],
       [[some (.vf (12.35 : ℚ))], [none], [none]]⟩ := by
  simp [convert_to_float, castColumn, colIndex, cellToFloat, parseFloatChars,
        parseUnsignedFloat, digitsToNat, roundTo2, roundHalfAway, weightScenarioDF,
        List.takeWhile, List.dropWhile, isDigitChar]
  norm_num

/-! ## C9 and C1: dictionary keys of the transformer/loader interface -/

/-- A `filterMap`-built dictionary has no entry under `key` when no
produced pair can carry `key`. -/
theorem dictLookup_filterMap_none {α β : Type} (key : String)
    (l : List α) (f : α → Option (String × β))
    (h : ∀ a ∈ l, ∀ v, f a = some v → v.1 ≠ key) :
    dictLookup key (l.filterMap f) = none := by
  induction l with
  | nil => rfl
  | cons a rest ih =>
    rw [List.filterMap_cons]
    cases hf : f a with
    | none => exact ih (fun b hb => h b (List.mem_cons_of_mem a hb))
    | some v =>
      have hne : v.1 ≠ key := h a (List.mem_cons_self a rest) v hf
      cases v with
      | mk k w =>
        simp only [dictLookup, if_neg hne]
        exact ih (fun b hb => h b (List.mem_cons_of_mem a hb))

theorem entity_table_names_nodup :
    (entity_mapping.map (fun m => m.2.1)).Nodup := by decide

/-- C9 (amended): for every entity table whose dataframe key is absent
from the input mapping, `load_all_entity_tables` skips the table and
omits it from the returned per-table results (it reports no entry at
all, rather than a zero count), and does not treat the absence as an
error. -/
theorem c9_absent_entity_table_omitted (db : Db) (d : DfDict) (truncate : Bool)
    (dfKey tn pk : String) (hm : (dfKey, tn, pk) ∈ entity_mapping)
    (habs : dictLookup dfKey d = none) :
    dictLookup tn (load_all_entity_tables db d truncate) = none := by
  apply dictLookup_filterMap_none
  intro m hmem v hv
  rcases Option.map_eq_some'.mp hv with ⟨df, hdf, hvdef⟩
  intro hkey
  have hfst : m.2.1 = tn := by rw [← hvdef] at hkey; exact hkey
  have hmeq : m = (dfKey, tn, pk) := by
    have hinj := List.inj_on_of_nodup_map entity_table_names_nodup
    exact hinj hmem hm (by simpa using hfst)
  rw [hmeq] at hdf
  simp only at hdf
  rw [habs] at hdf
  exact Option.noConfusion hdf

/-- Witness for C9: a dictionary missing the supplier dataframe key
produces a result with no `supplier_data` entry. -/
theorem c9_absent_entity_table_omitted_witness :
    dictLookup "supplier_data" (load_all_entity_tables dbBenign dictNoSupplier true) = none :=
  c9_absent_entity_table_omitted dbBenign dictNoSupplier true
    "transformed_supplier_df" "supplier_data" "supplier_id"
    (by decide) (by decide)

/-- Counterexample to C9 as stated: for the dictionary missing the
supplier entry, the result reports no count at all for `supplier_data`
(in particular not the claimed count of zero), while the other mapped
tables are still present. -/
theorem c9_counterexample :
    dictLookup "transformed_supplier_df" dictNoSupplier = none ∧
    dictLookup "supplier_data" (load_all_entity_tables dbBenign dictNoSupplier true) ≠ some 0 ∧
    dictLookup "supplier_data" (load_all_entity_tables dbBenign dictNoSupplier true) = none ∧
    dictLookup "part_data" (load_all_entity_tables dbBenign dictNoSupplier true) = some 0 := by
  decide

/-- The transformer's output dictionary never contains the key
`line_df`: every key it produces is the `transformed_<name>` result key
of a processing entry. -/
theorem transformer_no_line_df_key (pinyin : List Char → List Char)
    (extracted : List (String × DFrame)) :
    dictLookup "line_df" (transformer pinyin extracted) = none := by
  apply dictLookup_filterMap_none
  intro p hp v hv
  rcases Option.map_eq_some'.mp hv with ⟨df, _, hvdef⟩
  have hfst : v.1 = p.2.2 := by rw [← hvdef]
  simp only [dataframes_to_process, List.mem_cons, List.not_mem_nil, or_false] at hp
  rcases hp with h | h | h | h | h | h | h | h <;> subst h <;>
    (dsimp only at hfst ⊢; rw [hfst]; decide)

/-- C1 (code bug): the loader does not accept the transformer's
`transformed_<name>` naming convention.  `transformer()` stores the line
table under `transformed_line_df`, while `validate_transformed_data`
requires the key `line_df` and `load_all_entity_tables` reads the line
entity from `line_df`; hence validation rejects every dictionary
`transformer()` returns, and the line entity table is never loaded from
it. -/
theorem c1_transformer_output_rejected_by_loader
    (pinyin : List Char → List Char) (extracted : List (String × DFrame))
    (db : Db) (truncate : Bool) :
    validate_transformed_data (transformer pinyin extracted) = false ∧
    dictLookup "line_data"
      (load_all_entity_tables db (transformer pinyin extracted) truncate) = none := by
  constructor
  · have hline := transformer_no_line_df_key pinyin extracted
    have hall : required_df_keys.all
        (fun k => (dictLookup k (transformer pinyin extracted)).isSome) = false := by
      apply List.all_eq_false.mpr
      refine ⟨"line_df", by decide, ?_⟩
      rw [hline]
      decide
    unfold validate_transformed_data
    rw [hall]
    exact Bool.false_and _
  · apply dictLookup_filterMap_none
    intro m hmem v hv
    rcases Option.map_eq_some'.mp hv with ⟨df, hdf, hvdef⟩
    have hfst : v.1 = m.2.1 := by rw [← hvdef]
    simp only [entity_mapping, List.mem_cons, List.not_mem_nil, or_false] at hmem
    rcases hmem with h | h | h | h | h | h | h <;> subst h <;>
      dsimp only at hdf hfst ⊢ <;>
      first
        | (rw [hfst]; decide)
        | (rw [transformer_no_line_df_key pinyin extracted] at hdf
           exact Option.noConfusion hdf)

/-! ## C3 and C2: the control flow of `load_transformed_data` -/

/-- C3 (amended): `load_transformed_data` never raises — every failure
it can classify, including the programmer errors of an invalid call
shape (a `transformed_df_dict` that is not a dict, a non-dict
`transformer()` result, or no data source at all) and a validation
failure, is caught by the top-level handler and converted into the
result structure `{success, record_counts, step_results, error}` with
`success = false` and the classified message in `error`. -/
theorem c3_all_failures_converted_to_result (db : Db) (input : Option InputArg)
    (truncate use_tr : Bool) (tr : InputArg) :
    (∀ e : String, resolveInput input use_tr tr = .error e →
      (load_transformed_data db input truncate use_tr tr).fst =
        { success := false, record_counts := [],
          step_results := ⟨none, none, none⟩, error := some e }) ∧
    (∀ d : DfDict, resolveInput input use_tr tr = .ok d →
      validate_transformed_data d = false →
      (load_transformed_data db input truncate use_tr tr).fst =
        { success := false, record_counts := [],
          step_results := ⟨none, none, none⟩,
          error := some "Data validation failed" }) := by
  constructor
  · intro e he
    unfold load_transformed_data
    rw [he]
  · intro d hd hv
    unfold load_transformed_data
    rw [hd]
    simp [hv]

/-- Witness for C3 at concrete inputs: a non-dict argument is converted
into the result structure rather than propagated. -/
theorem c3_all_failures_converted_to_result_witness :
    (load_transformed_data dbBenign (some (.notDict "int")) true true (.dictArg [])).fst =
      { success := false, record_counts := [],
        step_results := ⟨none, none, none⟩,
        error := some "transformed_df_dict should be dict, got int" } :=
  (c3_all_failures_converted_to_result dbBenign (some (.notDict "int"))
      true true (.dictArg [])).1
    "transformed_df_dict should be dict, got int" rfl

/-- Counterexample to C3 as stated: the programmer errors do not
propagate as exceptions — for a non-dict argument and for a missing
data source, `load_transformed_data` still returns the result structure,
with the classified message stored in `error` and `success = false`. -/
theorem c3_counterexample :
    (load_transformed_data dbBenign (some (.notDict "int")) true true (.dictArg [])).fst.error
      = some "transformed_df_dict should be dict, got int" ∧
    (load_transformed_data dbBenign (some (.notDict "int")) true true (.dictArg [])).fst.success
      = false ∧
    (load_transformed_data dbBenign none true false (.dictArg [])).fst.error
      = some "No data provided. Either pass transformed_df_dict or set use_transformer=True" := by
  decide

/-- C2 (amended): in every run of `load_transformed_data` that reaches
the loading phases, constraint restoration is attempted at least once
through the guaranteed-cleanup block: exactly once when that attempt
succeeds (and then no error is reported); when it fails, the top-level
handler attempts restoration a second time — two executions, not one —
and the run's reported error is the restoration failure itself. -/
theorem c2_restoration_attempts (db : Db) (d : DfDict) (truncate use_tr : Bool)
    (tr : InputArg) (hv : validate_transformed_data d = true) :
    (db.enableFail 0 = none →
      (load_transformed_data db (some (.dictArg d)) truncate use_tr tr).snd = 1 ∧
      (load_transformed_data db (some (.dictArg d)) truncate use_tr tr).fst.error = none) ∧
    (∀ e : String, db.enableFail 0 = some e →
      (load_transformed_data db (some (.dictArg d)) truncate use_tr tr).snd = 2 ∧
      (load_transformed_data db (some (.dictArg d)) truncate use_tr tr).fst.error = some e) := by
  constructor
  · intro he
    unfold load_transformed_data
    simp [resolveInput, hv, he]
  · intro e he
    unfold load_transformed_data
    simp [resolveInput, hv, he]

/-- Witness for C2 (amended) at concrete inputs: with a database on
which restoration fails, a validated run makes two restoration attempts
and reports the restoration error. -/
theorem c2_restoration_attempts_witness :
    (load_transformed_data dbEnableFails (some (.dictArg validDict)) true true (.dictArg [])).snd = 2 ∧
    (load_transformed_data dbEnableFails (some (.dictArg validDict)) true true (.dictArg [])).fst.error
      = some "enable failed" :=
  (c2_restoration_attempts dbEnableFails validDict true true (.dictArg [])
      (by decide)).2 "enable failed" rfl

/-- Counterexample to C2 as stated: a run that reaches the loading
phases on which the cleanup-block restoration fails executes
`enable_foreign_keys` twice, not exactly once, and the run's reported
error is the restoration failure. -/
theorem c2_counterexample :
    validate_transformed_data validDict = true ∧
    (load_transformed_data dbEnableFails (some (.dictArg validDict)) true true (.dictArg [])).snd ≠ 1 ∧
    (load_transformed_data dbEnableFails (some (.dictArg validDict)) true true (.dictArg [])).snd = 2 := by
  decide

/-! ## C4: junction derivation -/

theorem dedupAux_props {α : Type} [DecidableEq α] :
    ∀ (l seen : List α),
      (dedupAux seen l).Nodup ∧ ∀ a ∈ dedupAux seen l, a ∉ seen := by
  intro l
  induction l with
  | nil => intro seen; exact ⟨List.nodup_nil, by intro a ha; cases ha⟩
  | cons x rest ih =>
    intro seen
    by_cases hx : x ∈ seen
    · simpa [dedupAux, hx] using ih seen
    · have h' := ih (x :: seen)
      refine ⟨?_, ?_⟩
      · simp only [dedupAux, if_neg hx]
        refine List.nodup_cons.mpr ⟨?_, h'.1⟩
        intro hmem
        exact (h'.2 x hmem) (List.mem_cons_self x seen)
      · intro a ha
        simp only [dedupAux, if_neg hx, List.mem_cons] at ha
        rcases ha with rfl | ha
        · exact hx
        · intro hseen
          exact (h'.2 a ha) (List.mem_cons_of_mem x hseen)

theorem dedupKeepFirst_nodup {α : Type} [DecidableEq α] (l : List α) :
    (dedupKeepFirst l).Nodup :=
  (dedupAux_props l []).1

theorem dedupAux_subset {α : Type} [DecidableEq α] :
    ∀ (l seen : List α) (a : α), a ∈ dedupAux seen l → a ∈ l := by
  intro l
  induction l with
  | nil => intro seen a ha; cases ha
  | cons x rest ih =>
    intro seen a ha
    by_cases hx : x ∈ seen
    · simp only [dedupAux, if_pos hx] at ha
      exact List.mem_cons_of_mem x (ih seen a ha)
    · simp only [dedupAux, if_neg hx, List.mem_cons] at ha
      rcases ha with rfl | ha
      · exact List.mem_cons_self a rest
      · exact List.mem_cons_of_mem x (ih (x :: seen) a ha)

theorem zipWith_false_mask_id (f : Cell → Cell) :
    ∀ (mask : List Bool) (r : List Cell),
      (∀ b ∈ mask, b = false) → mask.length = r.length →
      List.zipWith (fun b c => if b then f c else c) mask r = r := by
  intro mask
  induction mask with
  | nil =>
    intro r _ hl
    cases r with
    | nil => rfl
    | cons c cs => simp at hl
  | cons b bs ih =>
    intro r hm hl
    cases r with
    | nil => simp at hl
    | cons c cs =>
      have hb : b = false := hm b (List.mem_cons_self b bs)
      subst hb
      simp only [List.zipWith, if_neg Bool.false_ne_true]
      rw [ih cs (fun b hb => hm b (List.mem_cons_of_mem _ hb)) (by simpa using hl)]

/-- C4 (amended): the junction rows produced by `load_junction_table`
(null-dropping, then deduplication, then integer coercion of the
declared key columns, then a final null-drop) contain no row with a
null key column; and when the declared key columns are already of
Int64 dtype — so that the coercion step rewrites nothing — no two rows
have an identical key tuple.  (In general the coercion, running after
deduplication, may collapse distinct key tuples into duplicates.) -/
theorem c4_junction_rows_nulls_and_duplicates (main : DFrame) (fks : List String) :
    (∀ r ∈ junctionRows main fks, ∀ c ∈ r, c ≠ none) ∧
    ((∀ fk ∈ fks, dtypeOf main fk = some Dtype.int64) →
      (junctionRows main fks).Nodup) := by
  constructor
  · intro r hr c hc
    unfold junctionRows at hr
    by_cases hmiss : fks.any (fun fk => !hasCol main fk)
    · rw [if_pos hmiss] at hr; cases hr
    · rw [if_neg hmiss] at hr
      simp only [dropNullRows, List.mem_filter] at hr
      have hall := List.all_eq_true.mp hr.2 c hc
      exact Option.ne_none_iff_isSome.mpr hall
  · intro hint
    unfold junctionRows
    by_cases hmiss : fks.any (fun fk => !hasCol main fk)
    · rw [if_pos hmiss]; exact List.nodup_nil
    · rw [if_neg hmiss]
      have hmask : ∀ b ∈ fks.map (fun fk => decide (dtypeOf main fk ≠ some Dtype.int64)),
          b = false := by
        intro b hb
        rcases List.mem_map.mp hb with ⟨fk, hfk, rfl⟩
        simp [hint fk hfk]
      have hlen : ∀ r ∈ dedupKeepFirst (dropNullRows (selectRows main fks)),
          r.length = fks.length := by
        intro r hr
        have hr' := dedupAux_subset _ [] r hr
        have hr'' := (List.mem_filter.mp hr').1
        rcases List.mem_map.mp hr'' with ⟨row, _, rfl⟩
        exact List.length_map _ _
      have hmap :
          (dedupKeepFirst (dropNullRows (selectRows main fks))).map (fun r =>
            List.zipWith (fun b c => if b then castValInt c else c)
              (fks.map (fun fk => decide (dtypeOf main fk ≠ some Dtype.int64))) r) =
          dedupKeepFirst (dropNullRows (selectRows main fks)) := by
        rw [List.map_congr_left (fun r hr =>
          zipWith_false_mask_id castValInt _ r hmask
            (by rw [List.length_map, hlen r hr]))]
        exact List.map_id _
      simp only [hmap]
      have hself : dropNullRows (dedupKeepFirst (dropNullRows (selectRows main fks))) =
          dedupKeepFirst (dropNullRows (selectRows main fks)) := by
        apply List.filter_eq_self.mpr
        intro r hr
        exact (List.mem_filter.mp (dedupAux_subset _ [] r hr)).2
      rw [hself]
      exact dedupKeepFirst_nodup _

/-- Witness for C4: on a main frame whose key columns are already
Int64, the derived junction rows are duplicate-free and null-free. -/
theorem c4_junction_rows_witness :
    (junctionRows intKeysDF ["part_id", "box_id"]).Nodup ∧
    (∀ r ∈ junctionRows intKeysDF ["part_id", "box_id"], ∀ c ∈ r, c ≠ none) :=
  ⟨(c4_junction_rows_nulls_and_duplicates intKeysDF ["part_id", "box_id"]).2 (by decide),
   (c4_junction_rows_nulls_and_duplicates intKeysDF ["part_id", "box_id"]).1⟩

/-- Counterexample to C4 as stated: integer coercion runs after
deduplication, so the distinct string key tuples ("1","2") and
("01","2") both coerce to (1,2) and the produced junction rows contain
two identical key tuples. -/
theorem c4_counterexample :
    junctionRows strKeysDF ["part_id", "box_id"] =
      [[some (.vi 1), some (.vi 2)], [some (.vi 1), some (.vi 2)]] ∧
    ¬ (junctionRows strKeysDF ["part_id", "box_id"]).Nodup := by
  decide

/-! ## C5: breakpoint derivation -/

theorem mkBreakpointRows_spec :
    ∀ (l : List (List Cell)) (k : Nat),
      (mkBreakpointRows k l).1.length = l.length ∧
      (mkBreakpointRows k l).2.length = 2 * l.length ∧
      ∀ i, i < l.length →
        ∃ t, l[i]? = some t ∧
          (mkBreakpointRows k l).1[i]? =
            some ⟨k + i, t.getD 0 none, breakpointDescription t,
                  t.getD 1 none, t.getD 2 none⟩ ∧
          (mkBreakpointRows k l).2[2 * i]? =
            some ⟨t.getD 1 none, k + i, true, false⟩ ∧
          (mkBreakpointRows k l).2[2 * i + 1]? =
            some ⟨t.getD 2 none, k + i, false, true⟩ := by
  intro l
  induction l with
  | nil => intro k; exact ⟨rfl, rfl, by intro i hi; cases hi⟩
  | cons t rest ih =>
    intro k
    have ihk := ih (k + 1)
    refine ⟨?_, ?_, ?_⟩
    · simp only [mkBreakpointRows, List.length_cons]
      rw [ihk.1]
    · simp only [mkBreakpointRows, List.length_cons]
      rw [ihk.2.1]
      ring
    · intro i hi
      cases i with
      | zero =>
        refine ⟨t, by simp, ?_, ?_, ?_⟩ <;> simp [mkBreakpointRows]
      | succ j =>
        have hj : j < rest.length := Nat.lt_of_succ_lt_succ hi
        obtain ⟨t', ht', hb, hp1, hp2⟩ := ihk.2.2 j hj
        refine ⟨t', by simpa using ht', ?_, ?_, ?_⟩
        · simp only [mkBreakpointRows]
          have : k + 1 + j = k + (j + 1) := by ring
          rw [← this]
          simpa using hb
        · have h2 : 2 * (j + 1) = 2 * j + 1 + 1 := by ring
          rw [h2]
          simp only [mkBreakpointRows]
          have : k + 1 + j = k + (j + 1) := by ring
          rw [← this]
          simpa using hp1
        · have h2 : 2 * (j + 1) + 1 = 2 * j + 1 + 1 + 1 := by ring
          rw [h2]
          simp only [mkBreakpointRows]
          have : k + 1 + j = k + (j + 1) := by ring
          rw [← this]
          simpa using hp2

theorem colIndex_eq_none_of_not_hasCol (df : DFrame) (c : String)
    (h : hasCol df c = false) : colIndex df c = none := by
  unfold hasCol at h
  unfold colIndex
  rw [List.findIdx?_eq_none_iff]
  intro x hx
  by_contra hb
  have hx' : x = c := by simpa using hb
  subst hx'
  have : df.cols.contains x = true := by simpa [List.elem_iff] using hx
  rw [this] at h
  cases h

/-- When one of the three breakpoint source columns is missing, every
selected row contains a null, so no triple survives the null-drop. -/
theorem uniqueBreakpointTriples_of_missing_col (main : DFrame)
    (hmiss : breakpoint_cols.any (fun c => !hasCol main c) = true) :
    uniqueBreakpointTriples main = [] := by
  rcases List.any_eq_true.mp hmiss with ⟨c, hc, hnc⟩
  have hcnone : colIndex main c = none :=
    colIndex_eq_none_of_not_hasCol main c (by simpa using hnc)
  have hnone : ∀ r ∈ selectRows main breakpoint_cols, ¬ (r.all Option.isSome = true) := by
    intro r hr hall
    rcases List.mem_map.mp hr with ⟨row, _, rfl⟩
    have hcell : (none : Cell) ∈ breakpoint_cols.map (fun c' =>
        match colIndex main c' with
        | some i => row.getD i none
        | none => none) := by
      apply List.mem_map.mpr
      refine ⟨c, hc, ?_⟩
      rw [hcnone]
    have := List.all_eq_true.mp hall none hcell
    simp at this
  unfold uniqueBreakpointTriples
  have hempty : dropNullRows (selectRows main breakpoint_cols) = [] := by
    apply List.filter_eq_nil_iff.mpr
    intro r hr
    simpa using hnone r hr
  rw [hempty]
  rfl

/-- C5: breakpoint derivation emits, per unique non-null
(breakpoint_date, old_part_id, new_part_id) triple, exactly one
breakpoint row and exactly two part-to-breakpoint rows — the old part
marked active-before/inactive-after and the new part marked
inactive-before/active-after — and assigns the i-th triple the
sequential identifier i+1. -/
theorem c5_breakpoint_rows (main : DFrame) :
    (extract_breakpoint_data main).1.length = (uniqueBreakpointTriples main).length ∧
    (extract_breakpoint_data main).2.length = 2 * (uniqueBreakpointTriples main).length ∧
    (uniqueBreakpointTriples main).Nodup ∧
    ∀ i, i < (uniqueBreakpointTriples main).length →
      ∃ t, (uniqueBreakpointTriples main)[i]? = some t ∧
        (extract_breakpoint_data main).1[i]? =
          some ⟨1 + i, t.getD 0 none, breakpointDescription t,
                t.getD 1 none, t.getD 2 none⟩ ∧
        (extract_breakpoint_data main).2[2 * i]? =
          some ⟨t.getD 1 none, 1 + i, true, false⟩ ∧
        (extract_breakpoint_data main).2[2 * i + 1]? =
          some ⟨t.getD 2 none, 1 + i, false, true⟩ := by
  have hnodup := dedupKeepFirst_nodup (dropNullRows (selectRows main breakpoint_cols))
  by_cases hmiss : breakpoint_cols.any (fun c => !hasCol main c) = true
  · have hu : uniqueBreakpointTriples main = [] :=
      uniqueBreakpointTriples_of_missing_col main hmiss
    unfold extract_breakpoint_data
    rw [if_pos hmiss, hu]
    exact ⟨rfl, rfl, List.nodup_nil, by intro i hi; cases hi⟩
  · unfold extract_breakpoint_data
    rw [if_neg hmiss]
    by_cases hemp : (uniqueBreakpointTriples main).isEmpty = true
    · have hu : uniqueBreakpointTriples main = [] := List.isEmpty_iff.mp hemp
      rw [if_pos hemp, hu]
      exact ⟨rfl, rfl, List.nodup_nil, by intro i hi; cases hi⟩
    · rw [if_neg hemp]
      have hspec := mkBreakpointRows_spec (uniqueBreakpointTriples main) 1
      exact ⟨hspec.1, hspec.2.1, hnodup, hspec.2.2⟩

/-- Witness for C5 at a concrete main frame: three rows containing a
duplicated triple yield two breakpoint rows and four part-to-breakpoint
rows, with the first triple's pair carrying identifier 1 and the stated
before/after flags. -/
theorem c5_breakpoint_rows_witness :
    (extract_breakpoint_data breakpointScenarioDF).1.length = 2 ∧
    (extract_breakpoint_data breakpointScenarioDF).2.length = 4 ∧
    (extract_breakpoint_data breakpointScenarioDF).2[0]? =
      some ⟨some (.vi 1), 1, true, false⟩ ∧
    (extract_breakpoint_data breakpointScenarioDF).2[1]? =
      some ⟨some (.vi 2), 1, false, true⟩ := by
  have h := c5_breakpoint_rows breakpointScenarioDF
  obtain ⟨t, ht, _, hp1, hp2⟩ := h.2.2.2 0 (by decide)
  have ht' : t = [some (.vs "2025-01-01"), some (.vi 1), some (.vi 2)] := by
    have hu : (uniqueBreakpointTriples breakpointScenarioDF)[0]? =
        some [some (.vs "2025-01-01"), some (.vi 1), some (.vi 2)] := by decide
    rw [hu] at ht
    exact (Option.some_inj.mp ht.symm)
  subst ht'
  refine ⟨h.1.trans (by decide), h.2.1.trans (by decide), ?_, ?_⟩
  · simpa using hp1
  · simpa using hp2

/-! ## C8: idempotence of the text-cleaning pipeline

### Character-class toolbox -/

theorem char_eq_iff_toNat {c d : Char} : c = d ↔ c.toNat = d.toNat := by
  constructor
  · intro h; rw [h]
  · intro h
    exact Char.ext (UInt32.ext h)

theorem toNat_ofNat_valid {n : Nat} (h : n < 55296) : (Char.ofNat n).toNat = n := by
  have hv : n.isValidChar := Or.inl h
  simp [Char.ofNat, hv, Char.ofNatAux, Char.toNat, UInt32.toNat, BitVec.toNat_ofNat]

theorem isLetterChar_iff {c : Char} :
    isLetterChar c = true ↔
      (65 ≤ c.toNat ∧ c.toNat ≤ 90) ∨ (97 ≤ c.toNat ∧ c.toNat ≤ 122) ∨
      (0x410 ≤ c.toNat ∧ c.toNat ≤ 0x42F) ∨ c.toNat = 0x401 ∨
      (0x430 ≤ c.toNat ∧ c.toNat ≤ 0x44F) ∨ c.toNat = 0x451 := by
  simp [isLetterChar, isUpperAZ, isLowerAZ, isUpperCyr, isLowerCyr]
  omega

theorem isPlainChar_iff {c : Char} :
    isPlainChar c = true ↔
      (65 ≤ c.toNat ∧ c.toNat ≤ 90) ∨ (97 ≤ c.toNat ∧ c.toNat ≤ 122) ∨
      (0x410 ≤ c.toNat ∧ c.toNat ≤ 0x42F) ∨ c.toNat = 0x401 ∨
      (0x430 ≤ c.toNat ∧ c.toNat ≤ 0x44F) ∨ c.toNat = 0x451 ∨
      (48 ≤ c.toNat ∧ c.toNat ≤ 57) ∨ c.toNat = 32 := by
  have hsp : c = ' ' ↔ c.toNat = 32 := char_eq_iff_toNat
  simp [isPlainChar, isLetterChar, isUpperAZ, isLowerAZ, isUpperCyr, isLowerCyr,
        isDigitChar, hsp]
  omega

theorem letter_not_ws {c : Char} (h : isLetterChar c = true) : isWSChar c = false := by
  rw [isLetterChar_iff] at h
  simp [isWSChar]
  omega

theorem digit_not_ws {c : Char} (h : isDigitChar c = true) : isWSChar c = false := by
  simp [isDigitChar] at h
  simp [isWSChar]
  omega

theorem letter_not_digit {c : Char} (h : isLetterChar c = true) : isDigitChar c = false := by
  rw [isLetterChar_iff] at h
  simp [isDigitChar]
  omega

theorem upper_letter {c : Char} (h : isUpperChar c = true) : isLetterChar c = true := by
  simp [isUpperChar] at h
  rcases h with h | h <;> simp [isLetterChar, h]

theorem lower_letter {c : Char} (h : isLowerLetterChar c = true) : isLetterChar c = true := by
  simp [isLowerLetterChar] at h
  rcases h with h | h <;> simp [isLetterChar, h]

theorem upper_not_lowerAZ {c : Char} (h : isUpperChar c = true) : isLowerAZ c = false := by
  simp [isUpperChar, isUpperAZ, isUpperCyr] at h
  simp [isLowerAZ]
  omega

theorem lower_not_upper {c : Char} (h : isLowerLetterChar c = true) : isUpperChar c = false := by
  simp [isLowerLetterChar, isLowerAZ, isLowerCyr] at h
  simp [isUpperChar, isUpperAZ, isUpperCyr]
  omega

theorem digit_not_upper {c : Char} (h : isDigitChar c = true) : isUpperChar c = false := by
  simp [isDigitChar] at h
  simp [isUpperChar, isUpperAZ, isUpperCyr]
  omega

theorem digit_not_lowerAZ {c : Char} (h : isDigitChar c = true) : isLowerAZ c = false := by
  simp [isDigitChar] at h
  simp [isLowerAZ]
  omega

theorem space_not_upper : isUpperChar ' ' = false := by decide

theorem space_not_lowerAZ : isLowerAZ ' ' = false := by decide

theorem plain_not_cjk {c : Char} (h : isPlainChar c = true) : isCJKChar c = false := by
  rw [isPlainChar_iff] at h
  simp [isCJKChar]
  omega

theorem letter_alpha {c : Char} (h : isLetterChar c = true) : isAlphaChar c = true := by
  simp [isAlphaChar, h]

theorem digit_not_alpha {c : Char} (h : isDigitChar c = true) : isAlphaChar c = false := by
  simp [isDigitChar] at h
  simp [isAlphaChar, isLetterChar, isUpperAZ, isLowerAZ, isUpperCyr, isLowerCyr, isCJKChar]
  omega

theorem plain_not_special {c : Char} (h : isPlainChar c = true) :
    (isSpecialChar c || c.toNat == 10 || c.toNat == 9) = false := by
  rw [isPlainChar_iff] at h
  simp [isSpecialChar, specialCodes, List.contains]
  omega

theorem plain_not_dot {c : Char} (h : isPlainChar c = true) : c ≠ '.' := by
  rw [isPlainChar_iff] at h
  rw [Ne, char_eq_iff_toNat]
  intro hc
  rw [hc] at h
  simp at h

theorem toUpperChar_upper_fix {c : Char} (h : isUpperChar c = true) : toUpperChar c = c := by
  simp [isUpperChar, isUpperAZ, isUpperCyr] at h
  unfold toUpperChar
  have h1 : isLowerAZ c = false := by simp [isLowerAZ]; omega
  have h2 : (c.toNat == 0x451) = false := by simp; omega
  have h3 : isLowerCyr c = false := by simp [isLowerCyr]; omega
  rw [h1, h2, h3]
  rfl

theorem toLowerChar_lower_fix {c : Char} (h : isLowerLetterChar c = true) :
    toLowerChar c = c := by
  simp [isLowerLetterChar, isLowerAZ, isLowerCyr] at h
  unfold toLowerChar
  have h1 : isUpperAZ c = false := by simp [isUpperAZ]; omega
  have h2 : (c.toNat == 0x401) = false := by simp; omega
  have h3 : isUpperCyr c = false := by simp [isUpperCyr]; omega
  rw [h1, h2, h3]
  rfl

theorem toUpperChar_of_letter {c : Char} (h : isLetterChar c = true) :
    isUpperChar (toUpperChar c) = true := by
  rw [isLetterChar_iff] at h
  by_cases h1 : isLowerAZ c = true
  · simp [isLowerAZ] at h1
    unfold toUpperChar
    rw [(by simp [isLowerAZ]; omega : isLowerAZ c = true)]
    simp only [if_pos rfl]
    simp [isUpperChar, isUpperAZ, toNat_ofNat_valid (by omega : c.toNat - 32 < 55296)]
    omega
  · by_cases h2 : c.toNat = 0x451
    · unfold toUpperChar
      rw [(by simp [isLowerAZ]; omega : isLowerAZ c = false)]
      simp only [Bool.false_eq_true, if_neg (by trivial)]
      rw [(by simp [h2] : (c.toNat == 0x451) = true)]
      simp [isUpperChar, isUpperCyr, toNat_ofNat_valid (by omega : (0x401 : Nat) < 55296)]
    · by_cases h3 : isLowerCyr c = true
      · simp [isLowerCyr] at h3
        unfold toUpperChar
        rw [(by simp [isLowerAZ]; omega : isLowerAZ c = false)]
        rw [(by simp; omega : (c.toNat == 0x451) = false)]
        rw [(by simp [isLowerCyr]; omega : isLowerCyr c = true)]
        simp only [Bool.false_eq_true, if_neg (by trivial), if_pos rfl]
        simp [isUpperChar, isUpperCyr, toNat_ofNat_valid (by omega : c.toNat - 32 < 55296)]
        omega
      · -- c is already uppercase
        have hu : isUpperChar c = true := by
          simp [isLowerAZ] at h1
          simp [isLowerCyr] at h3
          simp [isUpperChar, isUpperAZ, isUpperCyr]
          omega
        rw [toUpperChar_upper_fix hu]
        exact hu

theorem toLowerChar_of_letter {c : Char} (h : isLetterChar c = true) :
    isLowerLetterChar (toLowerChar c) = true := by
  rw [isLetterChar_iff] at h
  by_cases h1 : isUpperAZ c = true
  · simp [isUpperAZ] at h1
    unfold toLowerChar
    rw [(by simp [isUpperAZ]; omega : isUpperAZ c = true)]
    simp only [if_pos rfl]
    simp [isLowerLetterChar, isLowerAZ, toNat_ofNat_valid (by omega : c.toNat + 32 < 55296)]
    omega
  · by_cases h2 : c.toNat = 0x401
    · unfold toLowerChar
      rw [(by simp [isUpperAZ]; omega : isUpperAZ c = false)]
      simp only [Bool.false_eq_true, if_neg (by trivial)]
      rw [(by simp [h2] : (c.toNat == 0x401) = true)]
      simp [isLowerLetterChar, isLowerCyr, toNat_ofNat_valid (by omega : (0x451 : Nat) < 55296)]
    · by_cases h3 : isUpperCyr c = true
      · simp [isUpperCyr] at h3
        unfold toLowerChar
        rw [(by simp [isUpperAZ]; omega : isUpperAZ c = false)]
        rw [(by simp; omega : (c.toNat == 0x401) = false)]
        rw [(by simp [isUpperCyr]; omega : isUpperCyr c = true)]
        simp only [Bool.false_eq_true, if_neg (by trivial), if_pos rfl]
        simp [isLowerLetterChar, isLowerCyr, toNat_ofNat_valid (by omega : c.toNat + 32 < 55296)]
        omega
      · have hl : isLowerLetterChar c = true := by
          simp [isUpperAZ] at h1
          simp [isUpperCyr] at h3
          simp [isLowerLetterChar, isLowerAZ, isLowerCyr]
          omega
        rw [toLowerChar_lower_fix hl]
        exact hl

/-! ### Generic list facts -/

theorem takeWhile_append_all {p : Char → Bool} {u : List Char} (l : List Char)
    (h : ∀ c ∈ u, p c = true) : (u ++ l).takeWhile p = u ++ l.takeWhile p := by
  induction u with
  | nil => simp
  | cons x xs ih =>
    simp only [List.cons_append, List.takeWhile_cons, h x (List.mem_cons_self x xs)]
    rw [ih (fun c hc => h c (List.mem_cons_of_mem x hc))]
    simp

theorem dropWhile_append_all {p : Char → Bool} {u : List Char} (l : List Char)
    (h : ∀ c ∈ u, p c = true) : (u ++ l).dropWhile p = l.dropWhile p := by
  induction u with
  | nil => simp
  | cons x xs ih =>
    simp only [List.cons_append, List.dropWhile_cons, h x (List.mem_cons_self x xs)]
    exact ih (fun c hc => h c (List.mem_cons_of_mem x hc))

theorem dropWhile_ne_nil_of_mem {p : Char → Bool} {l : List Char} {x : Char}
    (hx : x ∈ l) (hpx : p x = false) : l.dropWhile p ≠ [] := by
  induction l with
  | nil => cases hx
  | cons a rest ih =>
    rcases List.mem_cons.mp hx with rfl | hx'
    · simp [List.dropWhile_cons, hpx]
    · by_cases hpa : p a = true
      · simpa [List.dropWhile_cons, hpa] using ih hx'
      · simp [List.dropWhile_cons, Bool.eq_false_iff.mpr hpa]

/-! ### Step lemmas for `sepCamel` and `sepUpper` -/

theorem sepCamel_cons₂ {a b : Char} (rest : List Char)
    (h : (isLowerAZ a && isUpperAZ b) = false) :
    sepCamel (a :: b :: rest) = a :: sepCamel (b :: rest) := by
  show (if isLowerAZ a && isUpperAZ b then a :: ' ' :: sepCamel (b :: rest)
        else a :: sepCamel (b :: rest)) = a :: sepCamel (b :: rest)
  rw [h]
  simp

theorem sepCamel_cons_notlow {a : Char} (ha : isLowerAZ a = false) (l : List Char) :
    sepCamel (a :: l) = a :: sepCamel l := by
  cases l with
  | nil => rfl
  | cons b rest => exact sepCamel_cons₂ rest (by rw [ha]; simp)

theorem sepCamel_notlow_pref {u : List Char} (hu : ∀ c ∈ u, isLowerAZ c = false)
    (l : List Char) : sepCamel (u ++ l) = u ++ sepCamel l := by
  induction u with
  | nil => rfl
  | cons x xs ih =>
    rw [List.cons_append, sepCamel_cons_notlow (hu x (List.mem_cons_self x xs))]
    rw [ih (fun c hc => hu c (List.mem_cons_of_mem x hc))]
    rfl

theorem sepCamel_lowers_pref {u : List Char}
    (hu : ∀ c ∈ u, isLowerLetterChar c = true)
    {l : List Char} (hl : headNotUpperAZ l) :
    sepCamel (u ++ l) = u ++ sepCamel l := by
  induction u with
  | nil => rfl
  | cons x xs ih =>
    have hx := hu x (List.mem_cons_self x xs)
    have hxs : ∀ c ∈ xs, isLowerLetterChar c = true :=
      fun c hc => hu c (List.mem_cons_of_mem x hc)
    rw [List.cons_append]
    cases hxl : xs ++ l with
    | nil =>
      rcases List.append_eq_nil.mp hxl with ⟨rfl, rfl⟩
      rfl
    | cons b rest =>
      have hb : isUpperAZ b = false := by
        cases xs with
        | nil =>
          simp only [List.nil_append] at hxl
          exact hl b rest hxl
        | cons y ys =>
          simp only [List.cons_append, List.cons.injEq] at hxl
          have : isUpperChar y = false := lower_not_upper (hxs y (List.mem_cons_self y ys))
          have hy : isUpperAZ y = false := by
            simp [isUpperChar] at this
            exact this.1
          rw [← hxl.1]
          exact hy
      rw [sepCamel_cons₂ rest (by rw [hb]; simp), ← hxl, ih hxs]
      rfl

theorem sepUpper_cons (c : Char) (l : List Char) :
    sepUpper (c :: l) = (if isUpperChar c then [' ', c] else [c]) ++ sepUpper l := by
  show (if isUpperChar c then ' ' :: c :: sepUpper l else c :: sepUpper l) = _
  by_cases hc : isUpperChar c = true
  · rw [hc]; simp
  · rw [Bool.eq_false_iff.mpr hc]; simp

theorem sepUpper_append (a b : List Char) :
    sepUpper (a ++ b) = sepUpper a ++ sepUpper b := by
  induction a with
  | nil => rfl
  | cons x xs ih =>
    rw [List.cons_append, sepUpper_cons, sepUpper_cons, ih, List.append_assoc]

theorem sepUpper_id {l : List Char} (h : ∀ c ∈ l, isUpperChar c = false) :
    sepUpper l = l := by
  induction l with
  | nil => rfl
  | cons x xs ih =>
    rw [sepUpper_cons, h x (List.mem_cons_self x xs)]
    rw [ih (fun c hc => h c (List.mem_cons_of_mem x hc))]
    simp

theorem sepUpper_cons_upper {c : Char} (hc : isUpperChar c = true) (l : List Char) :
    sepUpper (c :: l) = ' ' :: c :: sepUpper l := by
  rw [sepUpper_cons, hc]
  simp

theorem sepUpper_cons_notupper {c : Char} (hc : isUpperChar c = false) (l : List Char) :
    sepUpper (c :: l) = c :: sepUpper l := by
  show (if isUpperChar c then ' ' :: c :: sepUpper l else c :: sepUpper l) = _
  rw [hc]
  simp

/-! ### Step lemmas for whitespace collapsing, stripping, and the word
decomposition -/

theorem takeWhile_all {p : Char → Bool} {l : List Char} (h : ∀ c ∈ l, p c = true) :
    l.takeWhile p = l := by
  induction l with
  | nil => rfl
  | cons x xs ih =>
    rw [List.takeWhile_cons, h x (List.mem_cons_self x xs)]
    simp [ih (fun c hc => h c (List.mem_cons_of_mem x hc))]

theorem dropWhile_all {p : Char → Bool} {l : List Char} (h : ∀ c ∈ l, p c = true) :
    l.dropWhile p = [] := by
  induction l with
  | nil => rfl
  | cons x xs ih =>
    rw [List.dropWhile_cons, h x (List.mem_cons_self x xs)]
    simp [ih (fun c hc => h c (List.mem_cons_of_mem x hc))]

theorem dropWhile_all_false {p : Char → Bool} {l : List Char}
    (h : ∀ c ∈ l, p c = false) : l.dropWhile p = l := by
  cases l with
  | nil => rfl
  | cons x xs =>
    rw [List.dropWhile_cons, h x (List.mem_cons_self x xs)]
    simp

theorem dropWhile_head_false {p : Char → Bool} {x : Char} {xs : List Char} :
    ∀ l : List Char, List.dropWhile p l = x :: xs → p x = false := by
  intro l
  induction l with
  | nil => intro h; cases h
  | cons a rest ih =>
    intro h
    rw [List.dropWhile_cons] at h
    by_cases ha : p a = true
    · rw [ha] at h
      simp at h
      exact ih h
    · rw [Bool.eq_false_iff.mpr ha] at h
      simp at h
      rw [← h.1]
      exact Bool.eq_false_iff.mpr ha

theorem collapseAux_cons_ws {c : Char} (hc : isWSChar c = true) (b : Bool)
    (l : List Char) :
    collapseAux b (c :: l) =
      (if b then ([] : List Char) else [' ']) ++ collapseAux true l := by
  show (if isWSChar c then
          if b then collapseAux true l else ' ' :: collapseAux true l
        else c :: collapseAux false l) = _
  rw [hc]
  cases b <;> simp

theorem collapseAux_cons_notws {c : Char} (hc : isWSChar c = false) (b : Bool)
    (l : List Char) :
    collapseAux b (c :: l) = c :: collapseAux false l := by
  show (if isWSChar c then
          if b then collapseAux true l else ' ' :: collapseAux true l
        else c :: collapseAux false l) = _
  rw [hc]
  simp

theorem collapseAux_notws_word {u : List Char} (hu : ∀ c ∈ u, isWSChar c = false)
    (l : List Char) : collapseAux false (u ++ l) = u ++ collapseAux false l := by
  induction u with
  | nil => rfl
  | cons x xs ih =>
    rw [List.cons_append, collapseAux_cons_notws (hu x (List.mem_cons_self x xs))]
    rw [ih (fun c hc => hu c (List.mem_cons_of_mem x hc))]
    rfl

theorem collapseAux_true_dropWhile :
    ∀ l : List Char, collapseAux true l = collapseAux false (l.dropWhile isWSChar) := by
  intro l
  induction l with
  | nil => rfl
  | cons c rest ih =>
    by_cases hc : isWSChar c = true
    · rw [collapseAux_cons_ws hc, List.dropWhile_cons, hc]
      simpa using ih
    · have hc' := Bool.eq_false_iff.mpr hc
      rw [collapseAux_cons_notws hc', List.dropWhile_cons, hc']
      simp [collapseAux_cons_notws hc']

theorem stripWS_cons_ws {c : Char} (hc : isWSChar c = true) (l : List Char) :
    stripWS (c :: l) = stripWS l := by
  unfold stripWS
  rw [List.dropWhile_cons, hc]
  simp

theorem stripWS_no_ws {l : List Char} (h : ∀ c ∈ l, isWSChar c = false) :
    stripWS l = l := by
  unfold stripWS
  rw [dropWhile_all_false h, dropWhile_all_false (by
    intro c hc
    exact h c (List.mem_reverse.mp hc))]
  exact List.reverse_reverse l

theorem stripWS_word_trail {u : List Char} (hu : ∀ c ∈ u, isWSChar c = false) :
    stripWS (u ++ [' ']) = u := by
  unfold stripWS
  rw [List.dropWhile_append]
  rw [dropWhile_all_false hu]
  cases u with
  | nil => rfl
  | cons x xs =>
    simp only [List.isEmpty_cons, List.cons_append]
    rw [if_neg (by simp)]
    have hshape : (x :: (xs ++ [' '])) = (x :: xs) ++ [' '] := by simp
    rw [hshape, List.reverse_append]
    simp only [List.reverse_singleton, List.singleton_append]
    rw [List.dropWhile_cons]
    rw [(by decide : isWSChar ' ' = true)]
    simp only [if_pos rfl]
    rw [dropWhile_all_false (by
      intro c hc
      rw [List.mem_reverse] at hc
      exact hu c hc)]
    simp

theorem stripWS_word_mid {u Y : List Char} (hu : ∀ c ∈ u, isWSChar c = false)
    (hune : u ≠ []) {f : Char} {Y' : List Char} (hY : Y = f :: Y')
    (hf : isWSChar f = false) :
    stripWS (u ++ ' ' :: Y) = u ++ ' ' :: stripWS Y := by
  unfold stripWS
  have hYdrop : Y.dropWhile isWSChar = Y := by
    rw [hY, List.dropWhile_cons, hf]
    simp
  rw [hYdrop]
  rw [List.dropWhile_append, dropWhile_all_false hu]
  cases u with
  | nil => exact absurd rfl hune
  | cons x xs =>
    rw [if_neg (by simp)]
    have hrev : ((x :: xs) ++ ' ' :: Y).reverse = Y.reverse ++ ' ' :: (x :: xs).reverse := by
      rw [List.reverse_append, List.reverse_cons]
      simp
    rw [hrev]
    rw [List.dropWhile_append]
    have hYne : Y.reverse.dropWhile isWSChar ≠ [] := by
      apply dropWhile_ne_nil_of_mem (x := f)
      · rw [hY, List.mem_reverse]; exact List.mem_cons_self f Y'
      · exact hf
    rw [if_neg (by simpa using hYne)]
    rw [List.reverse_append, List.reverse_cons, List.reverse_reverse]
    simp

theorem wordsOf_nil : wordsOf [] = [] := by simp [wordsOf]

theorem wordsOf_cons_ws {c : Char} (hc : isWSChar c = true) (l : List Char) :
    wordsOf (c :: l) = wordsOf l := by
  rw [wordsOf]
  simp [hc]

theorem wordsOf_cons_notws {c : Char} (hc : isWSChar c = false) (l : List Char) :
    wordsOf (c :: l) =
      (c :: l.takeWhile notWS) :: wordsOf (l.dropWhile notWS) := by
  rw [wordsOf]
  simp [hc]

theorem wordsOf_dropWhile_ws :
    ∀ l : List Char, wordsOf (l.dropWhile isWSChar) = wordsOf l := by
  intro l
  induction l with
  | nil => rfl
  | cons c rest ih =>
    by_cases hc : isWSChar c = true
    · rw [List.dropWhile_cons, hc, wordsOf_cons_ws hc]
      simpa using ih
    · rw [List.dropWhile_cons, Bool.eq_false_iff.mpr hc]
      simp

theorem wordsOf_word_sep {u : List Char} (hune : u ≠ [])
    (hu : ∀ c ∈ u, isWSChar c = false) (l : List Char) :
    wordsOf (u ++ ' ' :: l) = u :: wordsOf l := by
  cases u with
  | nil => exact absurd rfl hune
  | cons c u' =>
    rw [List.cons_append, wordsOf_cons_notws (hu c (List.mem_cons_self c u'))]
    have hu' : ∀ x ∈ u', notWS x = true := by
      intro x hx
      simp [notWS, hu x (List.mem_cons_of_mem c hx)]
    have ht : List.takeWhile notWS (' ' :: l) = [] := by
      rw [List.takeWhile_cons, (by decide : notWS ' ' = false)]
      simp
    have hd : List.dropWhile notWS (' ' :: l) = ' ' :: l := by
      rw [List.dropWhile_cons, (by decide : notWS ' ' = false)]
      simp
    rw [takeWhile_append_all _ hu', dropWhile_append_all _ hu', ht, hd,
        wordsOf_cons_ws (by decide : isWSChar ' ' = true)]
    simp

theorem wordsOf_word_end {u : List Char} (hune : u ≠ [])
    (hu : ∀ c ∈ u, isWSChar c = false) : wordsOf u = [u] := by
  cases u with
  | nil => exact absurd rfl hune
  | cons c u' =>
    rw [wordsOf_cons_notws (hu c (List.mem_cons_self c u'))]
    have hu' : ∀ x ∈ u', notWS x = true := by
      intro x hx
      simp [notWS, hu x (List.mem_cons_of_mem c hx)]
    rw [takeWhile_all hu', dropWhile_all hu', wordsOf_nil]

theorem joinWords_cons₂ (u v : List Char) (rest : List (List Char)) :
    joinWords (u :: v :: rest) = u ++ ' ' :: joinWords (v :: rest) := rfl

theorem wordsOf_join {ws : List (List Char)}
    (h : ∀ u ∈ ws, u ≠ [] ∧ ∀ c ∈ u, isWSChar c = false) :
    wordsOf (joinWords ws) = ws := by
  induction ws with
  | nil => exact wordsOf_nil
  | cons u rest ih =>
    have hu := h u (List.mem_cons_self u rest)
    cases rest with
    | nil =>
      show wordsOf u = [u]
      exact wordsOf_word_end hu.1 hu.2
    | cons v rest' =>
      rw [joinWords_cons₂, wordsOf_word_sep hu.1 hu.2]
      rw [ih (fun w hw => h w (List.mem_cons_of_mem u hw))]

theorem wordsOf_prop :
    ∀ (n : Nat) (l : List Char), l.length ≤ n →
      ∀ u ∈ wordsOf l, u ≠ [] ∧ ∀ c ∈ u, isWSChar c = false := by
  intro n
  induction n with
  | zero =>
    intro l hl u hu
    rw [List.length_eq_zero.mp (Nat.le_zero.mp hl)] at hu
    rw [wordsOf_nil] at hu
    cases hu
  | succ n ih =>
    intro l hl u hu
    cases l with
    | nil => rw [wordsOf_nil] at hu; cases hu
    | cons c rest =>
      simp only [List.length_cons, Nat.succ_le_succ_iff] at hl
      by_cases hc : isWSChar c = true
      · rw [wordsOf_cons_ws hc] at hu
        exact ih rest hl u hu
      · have hc' := Bool.eq_false_iff.mpr hc
        rw [wordsOf_cons_notws hc'] at hu
        rcases List.mem_cons.mp hu with rfl | hu'
        · refine ⟨by simp, ?_⟩
          intro x hx
          rcases List.mem_cons.mp hx with rfl | hx'
          · exact hc'
          · have := List.mem_takeWhile_imp hx'
            simpa [notWS] using this
        · exact ih (rest.dropWhile notWS)
            (Nat.le_trans (List.dropWhile_sublist notWS).length_le hl) u hu'

theorem wordsOf_inf :
    ∀ (n : Nat) (l : List Char), l.length ≤ n → ∀ u ∈ wordsOf l, u <:+: l := by
  intro n
  induction n with
  | zero =>
    intro l hl u hu
    rw [List.length_eq_zero.mp (Nat.le_zero.mp hl)] at hu
    rw [wordsOf_nil] at hu
    cases hu
  | succ n ih =>
    intro l hl u hu
    cases l with
    | nil => rw [wordsOf_nil] at hu; cases hu
    | cons c rest =>
      simp only [List.length_cons, Nat.succ_le_succ_iff] at hl
      by_cases hc : isWSChar c = true
      · rw [wordsOf_cons_ws hc] at hu
        exact (ih rest hl u hu).trans (List.infix_cons (List.infix_refl rest))
      · have hc' := Bool.eq_false_iff.mpr hc
        rw [wordsOf_cons_notws hc'] at hu
        rcases List.mem_cons.mp hu with rfl | hu'
        · rcases List.takeWhile_prefix notWS (l := rest) with ⟨t, ht⟩
          exact ⟨[], t, by simp [ht]⟩
        · have h1 := ih (rest.dropWhile notWS)
            (Nat.le_trans (List.dropWhile_sublist notWS).length_le hl) u hu'
          exact h1.trans ((List.dropWhile_suffix notWS).isInfix.trans
            (List.infix_cons (List.infix_refl rest)))

theorem collapseAux_false_cons_ws {c : Char} (hc : isWSChar c = true)
    (l : List Char) : collapseAux false (c :: l) = ' ' :: collapseAux true l := by
  rw [collapseAux_cons_ws hc]
  simp

/-- Collapsing whitespace runs and trimming is the same as joining the
whitespace-separated words with single spaces. -/
theorem strip_collapse_eq_join :
    ∀ (n : Nat) (l : List Char), l.length ≤ n →
      stripWS (collapseWS l) = joinWords (wordsOf l) := by
  intro n
  induction n with
  | zero =>
    intro l hl
    rw [List.length_eq_zero.mp (Nat.le_zero.mp hl), wordsOf_nil]
    rfl
  | succ n ih =>
    intro l hl
    cases l with
    | nil => rw [wordsOf_nil]; rfl
    | cons c rest =>
      simp only [List.length_cons, Nat.succ_le_succ_iff] at hl
      by_cases hc : isWSChar c = true
      · unfold collapseWS
        rw [collapseAux_false_cons_ws hc, collapseAux_true_dropWhile]
        rw [stripWS_cons_ws (by decide : isWSChar ' ' = true)]
        rw [wordsOf_cons_ws hc, ← wordsOf_dropWhile_ws rest]
        exact ih (rest.dropWhile isWSChar)
          (Nat.le_trans (List.dropWhile_sublist isWSChar).length_le hl)
      · have hc' := Bool.eq_false_iff.mpr hc
        have hsplit : c :: rest = (c :: rest.takeWhile notWS) ++ rest.dropWhile notWS := by
          rw [List.cons_append, List.takeWhile_append_dropWhile]
        have huchars : ∀ x ∈ c :: rest.takeWhile notWS, isWSChar x = false := by
          intro x hx
          rcases List.mem_cons.mp hx with rfl | hx'
          · exact hc'
          · simpa [notWS] using List.mem_takeWhile_imp hx'
        rw [wordsOf_cons_notws hc']
        unfold collapseWS
        rw [hsplit, collapseAux_notws_word huchars]
        cases hd : rest.dropWhile notWS with
        | nil =>
          show stripWS ((c :: rest.takeWhile notWS) ++ collapseAux false []) = _
          simp only [collapseAux, List.append_nil]
          rw [stripWS_no_ws huchars, wordsOf_nil]
          rfl
        | cons e d' =>
          have he : isWSChar e = true := by
            have := dropWhile_head_false rest hd
            simpa [notWS] using this
          rw [collapseAux_false_cons_ws he, collapseAux_true_dropWhile]
          have hlen_d' : d'.length ≤ n := by
            have h1 : (rest.dropWhile notWS).length ≤ rest.length :=
              (List.dropWhile_sublist notWS).length_le
            rw [hd] at h1
            simp only [List.length_cons] at h1
            omega
          have hwd : wordsOf (e :: d') = wordsOf (d'.dropWhile isWSChar) := by
            rw [wordsOf_cons_ws he, wordsOf_dropWhile_ws]
          rw [hwd]
          cases hdd : d'.dropWhile isWSChar with
          | nil =>
            rw [wordsOf_nil]
            show stripWS ((c :: rest.takeWhile notWS) ++ ' ' :: collapseAux false []) = _
            simp only [collapseAux]
            exact stripWS_word_trail huchars
          | cons f d₃ =>
            have hf : isWSChar f = false := dropWhile_head_false d' hdd
            rw [stripWS_word_mid huchars (by simp)
              (collapseAux_cons_notws hf false d₃) hf]
            have hih := ih (f :: d₃)
              (by
                have h2 : (d'.dropWhile isWSChar).length ≤ d'.length :=
                  (List.dropWhile_sublist isWSChar).length_le
                rw [hdd] at h2
                exact Nat.le_trans h2 hlen_d')
            rw [show stripWS (collapseAux false (f :: d₃)) =
                  joinWords (wordsOf (f :: d₃)) from hih]
            rw [wordsOf_cons_notws hf]
            rfl

/-! ### Step lemmas for the number-separation scanner -/

theorem sepNumAux_outN_nondigit {c : Char} (hc : isDigitChar c = false)
    (l : List Char) : sepNumAux .outN (c :: l) = c :: sepNumAux .outN l := by
  show (if isDigitChar c then ' ' :: c :: sepNumAux .intN l
        else c :: sepNumAux .outN l) = _
  rw [hc]
  simp

theorem sepNumAux_outN_digit {c : Char} (hc : isDigitChar c = true)
    (l : List Char) : sepNumAux .outN (c :: l) = ' ' :: c :: sepNumAux .intN l := by
  show (if isDigitChar c then ' ' :: c :: sepNumAux .intN l
        else c :: sepNumAux .outN l) = _
  rw [hc]
  simp

theorem sepNumAux_intN_digit {c : Char} (hc : isDigitChar c = true)
    (l : List Char) : sepNumAux .intN (c :: l) = c :: sepNumAux .intN l := by
  show (if isDigitChar c then c :: sepNumAux .intN l
        else if c = '.' then sepNumAux .pendN l
        else ' ' :: c :: sepNumAux .outN l) = _
  rw [hc]
  simp

theorem sepNumAux_intN_close {c : Char} (hc : isDigitChar c = false)
    (hdot : c ≠ '.') (l : List Char) :
    sepNumAux .intN (c :: l) = ' ' :: c :: sepNumAux .outN l := by
  show (if isDigitChar c then c :: sepNumAux .intN l
        else if c = '.' then sepNumAux .pendN l
        else ' ' :: c :: sepNumAux .outN l) = _
  rw [hc]
  simp [hdot]

theorem sepNum_nodigit_pref {u : List Char}
    (hu : ∀ c ∈ u, isDigitChar c = false) (l : List Char) :
    sepNumAux .outN (u ++ l) = u ++ sepNumAux .outN l := by
  induction u with
  | nil => rfl
  | cons x xs ih =>
    rw [List.cons_append, sepNumAux_outN_nondigit (hu x (List.mem_cons_self x xs))]
    rw [ih (fun c hc => hu c (List.mem_cons_of_mem x hc))]
    rfl

theorem sepNum_int_digits {u : List Char}
    (hu : ∀ c ∈ u, isDigitChar c = true) (l : List Char) :
    sepNumAux .intN (u ++ l) = u ++ sepNumAux .intN l := by
  induction u with
  | nil => rfl
  | cons x xs ih =>
    rw [List.cons_append, sepNumAux_intN_digit (hu x (List.mem_cons_self x xs))]
    rw [ih (fun c hc => hu c (List.mem_cons_of_mem x hc))]
    rfl

theorem sepNum_int_boundary {l : List Char}
    (hl : l = [] ∨ ∃ c l', l = c :: l' ∧ isDigitChar c = false ∧ c ≠ '.') :
    sepNumAux .intN l = ' ' :: sepNumAux .outN l := by
  rcases hl with rfl | ⟨c, l', rfl, hc, hdot⟩
  · rfl
  · rw [sepNumAux_intN_close hc hdot, sepNumAux_outN_nondigit hc]

theorem sepNum_digit_word {u : List Char} (hune : u ≠ [])
    (hu : ∀ c ∈ u, isDigitChar c = true) {l : List Char}
    (hl : l = [] ∨ ∃ c l', l = c :: l' ∧ isDigitChar c = false ∧ c ≠ '.') :
    sepNumAux .outN (u ++ l) = ' ' :: u ++ ' ' :: sepNumAux .outN l := by
  cases u with
  | nil => exact absurd rfl hune
  | cons d ds =>
    rw [List.cons_append, sepNumAux_outN_digit (hu d (List.mem_cons_self d ds))]
    rw [sepNum_int_digits (fun c hc => hu c (List.mem_cons_of_mem d hc))]
    rw [sepNum_int_boundary hl]
    rfl

/-- On dot-free input the scanner's output consists of spaces and input
characters. -/
theorem sepNum_chars {l : List Char} (hdot : ∀ c ∈ l, c ≠ '.') :
    (∀ x ∈ sepNumAux .outN l, x = ' ' ∨ x ∈ l) ∧
    (∀ x ∈ sepNumAux .intN l, x = ' ' ∨ x ∈ l) := by
  induction l with
  | nil =>
    constructor
    · intro x hx; cases hx
    · intro x hx
      rcases List.mem_singleton.mp hx with rfl
      exact Or.inl rfl
  | cons c rest ih =>
    have ih' := ih (fun x hx => hdot x (List.mem_cons_of_mem c hx))
    have hweak : ∀ x, x = ' ' ∨ x ∈ rest → x = ' ' ∨ x ∈ c :: rest := by
      intro x hx
      rcases hx with rfl | hx
      · exact Or.inl rfl
      · exact Or.inr (List.mem_cons_of_mem c hx)
    by_cases hc : isDigitChar c = true
    · constructor
      · intro x hx
        rw [sepNumAux_outN_digit hc] at hx
        rcases List.mem_cons.mp hx with rfl | hx
        · exact Or.inl rfl
        · rcases List.mem_cons.mp hx with rfl | hx
          · exact Or.inr (List.mem_cons_self x rest)
          · exact hweak x (ih'.2 x hx)
      · intro x hx
        rw [sepNumAux_intN_digit hc] at hx
        rcases List.mem_cons.mp hx with rfl | hx
        · exact Or.inr (List.mem_cons_self x rest)
        · exact hweak x (ih'.2 x hx)
    · have hc' := Bool.eq_false_iff.mpr hc
      have hcdot : c ≠ '.' := hdot c (List.mem_cons_self c rest)
      constructor
      · intro x hx
        rw [sepNumAux_outN_nondigit hc'] at hx
        rcases List.mem_cons.mp hx with rfl | hx
        · exact Or.inr (List.mem_cons_self x rest)
        · exact hweak x (ih'.1 x hx)
      · intro x hx
        rw [sepNumAux_intN_close hc' hcdot] at hx
        rcases List.mem_cons.mp hx with rfl | hx
        · exact Or.inl rfl
        · rcases List.mem_cons.mp hx with rfl | hx
          · exact Or.inr (List.mem_cons_self x rest)
          · exact hweak x (ih'.1 x hx)

theorem space_sepOK_left (b : Char) : sepOK ' ' b := by
  constructor
  · intro h
    exact absurd h (by decide)
  · intro _
    exact Or.inr rfl

theorem space_sepOK_right (a : Char) : sepOK a ' ' := by
  constructor
  · intro _
    exact Or.inr rfl
  · intro h
    exact absurd h (by decide)

/-- On dot-free input, the scanner's output never puts a digit next to a
non-space non-digit; moreover the out-state output never starts with a
digit and the in-state output starts with a digit or a space. -/
theorem sepNum_chain {l : List Char} (hdot : ∀ c ∈ l, c ≠ '.') :
    (List.Chain' sepOK (sepNumAux .outN l) ∧
      ∀ x ∈ (sepNumAux .outN l).head?, isDigitChar x = false) ∧
    (List.Chain' sepOK (sepNumAux .intN l) ∧
      ∀ x ∈ (sepNumAux .intN l).head?, isDigitChar x = true ∨ x = ' ') := by
  induction l with
  | nil =>
    refine ⟨⟨List.chain'_nil, ?_⟩, ⟨List.chain'_singleton _, ?_⟩⟩
    · intro x hx; cases hx
    · intro x hx
      have hrfl : (sepNumAux .intN ([] : List Char)) = [' '] := rfl
      rw [hrfl] at hx
      simp only [List.head?_cons, Option.mem_def, Option.some_inj] at hx
      exact Or.inr hx.symm
  | cons c rest ih =>
    have ih' := ih (fun x hx => hdot x (List.mem_cons_of_mem c hx))
    by_cases hc : isDigitChar c = true
    · refine ⟨⟨?_, ?_⟩, ⟨?_, ?_⟩⟩
      · rw [sepNumAux_outN_digit hc]
        refine List.chain'_cons.mpr ⟨space_sepOK_left c, ?_⟩
        refine List.chain'_cons'.mpr ⟨?_, ih'.2.1⟩
        intro y hy
        have := ih'.2.2 y hy
        exact ⟨fun _ => by
            rcases this with h | h
            · exact Or.inl h
            · exact Or.inr h,
          fun _ => Or.inl hc⟩
      · intro x hx
        rw [sepNumAux_outN_digit hc] at hx
        simp only [List.head?_cons, Option.mem_def, Option.some_inj] at hx
        subst hx
        decide
      · rw [sepNumAux_intN_digit hc]
        refine List.chain'_cons'.mpr ⟨?_, ih'.2.1⟩
        intro y hy
        have := ih'.2.2 y hy
        exact ⟨fun _ => by
            rcases this with h | h
            · exact Or.inl h
            · exact Or.inr h,
          fun _ => Or.inl hc⟩
      · intro x hx
        rw [sepNumAux_intN_digit hc] at hx
        simp only [List.head?_cons, Option.mem_def, Option.some_inj] at hx
        subst hx
        exact Or.inl hc
    · have hc' := Bool.eq_false_iff.mpr hc
      have hcdot : c ≠ '.' := hdot c (List.mem_cons_self c rest)
      refine ⟨⟨?_, ?_⟩, ⟨?_, ?_⟩⟩
      · rw [sepNumAux_outN_nondigit hc']
        refine List.chain'_cons'.mpr ⟨?_, ih'.1.1⟩
        intro y hy
        have hyn := ih'.1.2 y hy
        exact ⟨fun hd => absurd hd (by rw [hc']; simp),
          fun hd => absurd hd (by rw [hyn]; simp)⟩
      · intro x hx
        rw [sepNumAux_outN_nondigit hc'] at hx
        simp only [List.head?_cons, Option.mem_def, Option.some_inj] at hx
        subst hx
        exact hc'
      · rw [sepNumAux_intN_close hc' hcdot]
        refine List.chain'_cons.mpr ⟨space_sepOK_left c, ?_⟩
        refine List.chain'_cons'.mpr ⟨?_, ih'.1.1⟩
        intro y hy
        have hyn := ih'.1.2 y hy
        exact ⟨fun hd => absurd hd (by rw [hc']; simp),
          fun hd => absurd hd (by rw [hyn]; simp)⟩
      · intro x hx
        rw [sepNumAux_intN_close hc' hcdot] at hx
        simp only [List.head?_cons, Option.mem_def, Option.some_inj] at hx
        subst hx
        exact Or.inr rfl

/-! ### Step lemmas for title casing -/

theorem titleAux_cons_ws {c : Char} (hc : isWSChar c = true) (b : Bool)
    (l : List Char) : titleAux b (c :: l) = c :: titleAux true l := by
  show (if isWSChar c then c :: titleAux true l
        else if isAlphaChar c then
          (if b then toUpperChar c else toLowerChar c) :: titleAux false l
        else c :: titleAux b l) = _
  rw [hc]
  simp

theorem titleAux_cons_alpha {c : Char} (hws : isWSChar c = false)
    (ha : isAlphaChar c = true) (b : Bool) (l : List Char) :
    titleAux b (c :: l) =
      (if b then toUpperChar c else toLowerChar c) :: titleAux false l := by
  show (if isWSChar c then c :: titleAux true l
        else if isAlphaChar c then
          (if b then toUpperChar c else toLowerChar c) :: titleAux false l
        else c :: titleAux b l) = _
  rw [hws, ha]
  simp

theorem titleAux_cons_other {c : Char} (hws : isWSChar c = false)
    (ha : isAlphaChar c = false) (b : Bool) (l : List Char) :
    titleAux b (c :: l) = c :: titleAux b l := by
  show (if isWSChar c then c :: titleAux true l
        else if isAlphaChar c then
          (if b then toUpperChar c else toLowerChar c) :: titleAux false l
        else c :: titleAux b l) = _
  rw [hws, ha]
  simp

theorem titleAux_digits {u : List Char} (hu : ∀ c ∈ u, isDigitChar c = true)
    (b : Bool) (l : List Char) : titleAux b (u ++ l) = u ++ titleAux b l := by
  induction u with
  | nil => rfl
  | cons x xs ih =>
    have hx := hu x (List.mem_cons_self x xs)
    rw [List.cons_append, titleAux_cons_other (digit_not_ws hx) (digit_not_alpha hx)]
    rw [ih (fun c hc => hu c (List.mem_cons_of_mem x hc))]
    rfl

theorem titleAux_letters_false {u : List Char}
    (hu : ∀ c ∈ u, isLetterChar c = true) (l : List Char) :
    titleAux false (u ++ l) = u.map toLowerChar ++ titleAux false l := by
  induction u with
  | nil => rfl
  | cons x xs ih =>
    have hx := hu x (List.mem_cons_self x xs)
    rw [List.cons_append, titleAux_cons_alpha (letter_not_ws hx) (letter_alpha hx)]
    rw [ih (fun c hc => hu c (List.mem_cons_of_mem x hc))]
    simp

theorem titleAux_letter_word {h : Char} {t : List Char}
    (hh : isLetterChar h = true) (ht : ∀ c ∈ t, isLetterChar c = true)
    (l : List Char) :
    titleAux true ((h :: t) ++ l) =
      (toUpperChar h :: t.map toLowerChar) ++ titleAux false l := by
  rw [List.cons_append, titleAux_cons_alpha (letter_not_ws hh) (letter_alpha hh)]
  rw [titleAux_letters_false ht]
  simp

theorem titlecaseWord_digits {u : List Char} (hu : ∀ c ∈ u, isDigitChar c = true) :
    titlecaseWord u = u := by
  unfold titlecaseWord
  rw [List.all_eq_true.mpr hu]
  simp

theorem titlecaseWord_letters {h : Char} {t : List Char}
    (hh : isLetterChar h = true) :
    titlecaseWord (h :: t) = toUpperChar h :: t.map toLowerChar := by
  unfold titlecaseWord
  have : ((h :: t).all isDigitChar) = false := by
    apply List.all_eq_false.mpr
    exact ⟨h, List.mem_cons_self h t, by simp [letter_not_digit hh]⟩
  rw [this]
  simp

/-- Title casing a space-joined sequence of homogeneous words titles
each word independently. -/
theorem toTitle_join :
    ∀ ws : List (List Char),
      (∀ u ∈ ws, u ≠ [] ∧
        ((∀ c ∈ u, isDigitChar c = true) ∨ (∀ c ∈ u, isLetterChar c = true))) →
      toTitle (joinWords ws) = joinWords (ws.map titlecaseWord) := by
  intro ws
  induction ws with
  | nil => intro _; rfl
  | cons u rest ih =>
    intro h
    have hu := h u (List.mem_cons_self u rest)
    cases rest with
    | nil =>
      show titleAux true u = joinWords [titlecaseWord u]
      have h0 : titleAux true ([] : List Char) = [] := rfl
      have h0' : titleAux false ([] : List Char) = [] := rfl
      rcases hu.2 with hd | hlet
      · have hend : titleAux true u = u := by
          have := titleAux_digits hd true []
          simpa [h0] using this
        rw [hend, titlecaseWord_digits hd]
        rfl
      · cases hue : u with
        | nil => exact absurd hue hu.1
        | cons h' t =>
          subst hue
          have hh' := hlet h' (List.mem_cons_self h' t)
          have hend : titleAux true (h' :: t) = toUpperChar h' :: t.map toLowerChar := by
            have := titleAux_letter_word hh'
              (fun c hc => hlet c (List.mem_cons_of_mem h' hc)) []
            simpa [h0'] using this
          rw [hend, titlecaseWord_letters hh']
          rfl
    | cons v rest' =>
      have hrest := fun w hw => h w (List.mem_cons_of_mem u hw)
      rw [joinWords_cons₂]
      show titleAux true (u ++ ' ' :: joinWords (v :: rest')) = _
      have hspace : isWSChar ' ' = true := by decide
      have hcont : titleAux true (' ' :: joinWords (v :: rest')) =
          ' ' :: toTitle (joinWords (v :: rest')) := titleAux_cons_ws hspace true _
      rcases hu.2 with hd | hlet
      · rw [titleAux_digits hd, hcont, ih hrest]
        simp only [List.map_cons]
        rw [joinWords_cons₂, titlecaseWord_digits hd]
      · cases hue : u with
        | nil => exact absurd hue hu.1
        | cons h' t =>
          subst hue
          have hh' := hlet h' (List.mem_cons_self h' t)
          rw [titleAux_letter_word hh'
            (fun c hc => hlet c (List.mem_cons_of_mem h' hc))]
          have hws : titleAux false (' ' :: joinWords (v :: rest')) =
              ' ' :: toTitle (joinWords (v :: rest')) := titleAux_cons_ws hspace false _
          rw [hws, ih hrest]
          simp only [List.map_cons]
          rw [joinWords_cons₂, titlecaseWord_letters hh']

theorem wordTitleCased_elim {u : List Char} (h : wordTitleCased u = true) :
    ∃ c cs, u = c :: cs ∧ isUpperChar c = true ∧
      ∀ x ∈ cs, isLowerLetterChar x = true := by
  cases u with
  | nil => cases h
  | cons c cs =>
    have h' : (isUpperChar c && cs.all isLowerLetterChar) = true := h
    rw [Bool.and_eq_true] at h'
    exact ⟨c, cs, rfl, h'.1, fun x hx => List.all_eq_true.mp h'.2 x hx⟩

theorem canonWord_props {u : List Char} (h : isCanonWord u = true) :
    u ≠ [] ∧ ∀ c ∈ u, isLetterChar c = true ∨ isDigitChar c = true := by
  unfold isCanonWord at h
  rw [Bool.or_eq_true] at h
  rcases h with h | h
  · unfold wordAllDigits at h
    rw [Bool.and_eq_true] at h
    refine ⟨by simpa using h.1, ?_⟩
    intro c hc
    exact Or.inr (List.all_eq_true.mp h.2 c hc)
  · rcases wordTitleCased_elim h with ⟨c, cs, rfl, hc, hcs⟩
    refine ⟨by simp, ?_⟩
    intro x hx
    rcases List.mem_cons.mp hx with rfl | hx'
    · exact Or.inl (upper_letter hc)
    · exact Or.inl (lower_letter (hcs x hx'))

theorem titlecaseWord_canon_fix {u : List Char} (h : isCanonWord u = true) :
    titlecaseWord u = u := by
  unfold isCanonWord at h
  rw [Bool.or_eq_true] at h
  rcases h with h | h
  · unfold wordAllDigits at h
    rw [Bool.and_eq_true] at h
    exact titlecaseWord_digits (fun c hc => List.all_eq_true.mp h.2 c hc)
  · rcases wordTitleCased_elim h with ⟨c, cs, rfl, hc, hcs⟩
    rw [titlecaseWord_letters (upper_letter hc)]
    rw [toUpperChar_upper_fix hc]
    congr 1
    rw [List.map_congr_left (fun x hx => toLowerChar_lower_fix (hcs x hx))]
    exact List.map_id cs

theorem titlecaseWord_isCanon {u : List Char} (hune : u ≠ [])
    (hu : (∀ c ∈ u, isDigitChar c = true) ∨ (∀ c ∈ u, isLetterChar c = true)) :
    isCanonWord (titlecaseWord u) = true := by
  rcases hu with hd | hlet
  · rw [titlecaseWord_digits hd]
    unfold isCanonWord wordAllDigits
    rw [List.all_eq_true.mpr hd]
    simp [hune]
  · cases u with
    | nil => exact absurd rfl hune
    | cons h' t =>
      have hh' := hlet h' (List.mem_cons_self h' t)
      rw [titlecaseWord_letters hh']
      unfold isCanonWord wordTitleCased
      rw [Bool.or_eq_true]
      refine Or.inr ?_
      rw [Bool.and_eq_true]
      constructor
      · exact toUpperChar_of_letter hh'
      · apply List.all_eq_true.mpr
        intro x hx
        rcases List.mem_map.mp hx with ⟨y, hy, rfl⟩
        exact toLowerChar_of_letter (hlet y (List.mem_cons_of_mem h' hy))

theorem word_homogeneous :
    ∀ u : List Char, u ≠ [] →
      (∀ c ∈ u, isLetterChar c = true ∨ isDigitChar c = true) →
      List.Chain' sepOK u → (∀ c ∈ u, c ≠ ' ') →
      (∀ c ∈ u, isDigitChar c = true) ∨ (∀ c ∈ u, isLetterChar c = true) := by
  intro u
  induction u with
  | nil => intro h; exact absurd rfl h
  | cons x tail ih =>
    intro _ hchars hchain hnospace
    cases tail with
    | nil =>
      rcases hchars x (List.mem_cons_self x []) with hx | hx
      · right; intro c hc; rw [List.mem_singleton.mp hc]; exact hx
      · left; intro c hc; rw [List.mem_singleton.mp hc]; exact hx
    | cons y rest =>
      have hxy := (List.chain'_cons.mp hchain).1
      have hchain' := (List.chain'_cons.mp hchain).2
      have htail := ih (by simp)
        (fun c hc => hchars c (List.mem_cons_of_mem x hc))
        hchain' (fun c hc => hnospace c (List.mem_cons_of_mem x hc))
      have hy_mem : y ∈ y :: rest := List.mem_cons_self y rest
      rcases htail with hd | hlet
      · -- tail is all digits, so x must be a digit too
        have hyd := hd y hy_mem
        rcases hxy.2 hyd with hxd | hxsp
        · left
          intro c hc
          rcases List.mem_cons.mp hc with rfl | hc'
          · exact hxd
          · exact hd c hc'
        · exact absurd hxsp (hnospace x (List.mem_cons_self x (y :: rest)))
      · -- tail is all letters, so x cannot be a digit
        rcases hchars x (List.mem_cons_self x (y :: rest)) with hx | hx
        · right
          intro c hc
          rcases List.mem_cons.mp hc with rfl | hc'
          · exact hx
          · exact hlet c hc'
        · -- x digit: its right neighbour must be a digit or a space
          rcases hxy.1 hx with hyd | hysp
          · have := letter_not_digit (hlet y hy_mem)
            rw [hyd] at this
            cases this
          · exact absurd hysp (hnospace y (List.mem_cons_of_mem x hy_mem))

/-! ### Character membership through the pipeline stages -/

theorem sepCamel_cons₂_pos {a b : Char} (rest : List Char)
    (h : (isLowerAZ a && isUpperAZ b) = true) :
    sepCamel (a :: b :: rest) = a :: ' ' :: sepCamel (b :: rest) := by
  show (if isLowerAZ a && isUpperAZ b then a :: ' ' :: sepCamel (b :: rest)
        else a :: sepCamel (b :: rest)) = a :: ' ' :: sepCamel (b :: rest)
  rw [h]
  simp

theorem mem_sepCamel : ∀ (l : List Char) (x : Char), x ∈ sepCamel l → x = ' ' ∨ x ∈ l := by
  intro l
  induction l with
  | nil => intro x hx; cases hx
  | cons a tail ih =>
    intro x hx
    cases tail with
    | nil =>
      rcases List.mem_singleton.mp hx with rfl
      exact Or.inr (List.mem_cons_self x [])
    | cons b rest =>
      by_cases hab : (isLowerAZ a && isUpperAZ b) = true
      · rw [sepCamel_cons₂_pos rest hab] at hx
        rcases List.mem_cons.mp hx with rfl | hx
        · exact Or.inr (List.mem_cons_self x _)
        · rcases List.mem_cons.mp hx with rfl | hx
          · exact Or.inl rfl
          · rcases ih x hx with rfl | hm
            · exact Or.inl rfl
            · exact Or.inr (List.mem_cons_of_mem a hm)
      · rw [sepCamel_cons₂ rest (Bool.eq_false_iff.mpr hab)] at hx
        rcases List.mem_cons.mp hx with rfl | hx
        · exact Or.inr (List.mem_cons_self x _)
        · rcases ih x hx with rfl | hm
          · exact Or.inl rfl
          · exact Or.inr (List.mem_cons_of_mem a hm)

theorem mem_sepUpper : ∀ (l : List Char) (x : Char), x ∈ sepUpper l → x = ' ' ∨ x ∈ l := by
  intro l
  induction l with
  | nil => intro x hx; cases hx
  | cons c tail ih =>
    intro x hx
    rw [sepUpper_cons] at hx
    rcases List.mem_append.mp hx with hx | hx
    · by_cases hc : isUpperChar c = true
      · rw [if_pos hc] at hx
        rcases List.mem_cons.mp hx with rfl | hx
        · exact Or.inl rfl
        · rcases List.mem_singleton.mp hx with rfl
          exact Or.inr (List.mem_cons_self x tail)
      · rw [if_neg hc] at hx
        rcases List.mem_singleton.mp hx with rfl
        exact Or.inr (List.mem_cons_self x tail)
    · rcases ih x hx with rfl | hm
      · exact Or.inl rfl
      · exact Or.inr (List.mem_cons_of_mem c hm)

theorem mem_joinWords : ∀ (ws : List (List Char)) (x : Char),
    x ∈ joinWords ws → x = ' ' ∨ ∃ u ∈ ws, x ∈ u := by
  intro ws
  induction ws with
  | nil => intro x hx; cases hx
  | cons u rest ih =>
    intro x hx
    cases rest with
    | nil => exact Or.inr ⟨u, List.mem_cons_self u [], hx⟩
    | cons v rest' =>
      rw [joinWords_cons₂] at hx
      rcases List.mem_append.mp hx with hx | hx
      · exact Or.inr ⟨u, List.mem_cons_self u _, hx⟩
      · rcases List.mem_cons.mp hx with rfl | hx
        · exact Or.inl rfl
        · rcases ih x hx with rfl | ⟨w, hw, hxw⟩
          · exact Or.inl rfl
          · exact Or.inr ⟨w, List.mem_cons_of_mem u hw, hxw⟩

theorem replaceSpecial_id {l : List Char} (h : ∀ c ∈ l, isPlainChar c = true) :
    replaceSpecial l = l := by
  unfold replaceSpecial
  rw [List.map_congr_left (fun c hc => by
    rw [plain_not_special (h c hc)])]
  exact List.map_id l

/-- Space is a plain character; letters and digits are plain. -/
theorem letter_plain {c : Char} (h : isLetterChar c = true) : isPlainChar c = true := by
  simp [isPlainChar, h]

theorem digit_plain {c : Char} (h : isDigitChar c = true) : isPlainChar c = true := by
  simp [isPlainChar, h]

theorem space_plain : isPlainChar ' ' = true := by decide

/-! ### The pipeline on canonically-shaped strings -/

theorem canonWord_notWS {u : List Char} (h : isCanonWord u = true) :
    ∀ c ∈ u, isWSChar c = false := by
  intro c hc
  rcases (canonWord_props h).2 c hc with hl | hd
  · exact letter_not_ws hl
  · exact digit_not_ws hd

theorem canonWord_homog {u : List Char} (h : isCanonWord u = true) :
    u ≠ [] ∧ ((∀ c ∈ u, isDigitChar c = true) ∨ (∀ c ∈ u, isLetterChar c = true)) := by
  refine ⟨(canonWord_props h).1, ?_⟩
  unfold isCanonWord at h
  rw [Bool.or_eq_true] at h
  rcases h with h | h
  · unfold wordAllDigits at h
    rw [Bool.and_eq_true] at h
    exact Or.inl (fun c hc => List.all_eq_true.mp h.2 c hc)
  · rcases wordTitleCased_elim h with ⟨c, cs, rfl, hc, hcs⟩
    refine Or.inr ?_
    intro x hx
    rcases List.mem_cons.mp hx with rfl | hx'
    · exact upper_letter hc
    · exact lower_letter (hcs x hx')

theorem canonWords_chars {ws : List (List Char)}
    (h : ∀ u ∈ ws, isCanonWord u = true) :
    ∀ x ∈ joinWords ws, isPlainChar x = true := by
  intro x hx
  rcases mem_joinWords ws x hx with rfl | ⟨u, hu, hxu⟩
  · exact space_plain
  · rcases (canonWord_props (h u hu)).2 x hxu with hl | hd
    · exact letter_plain hl
    · exact digit_plain hd

theorem sepCamel_word_pref {u : List Char} (hc : isCanonWord u = true)
    {l : List Char} (hb : headNotUpperAZ l) :
    sepCamel (u ++ l) = u ++ sepCamel l := by
  unfold isCanonWord at hc
  rw [Bool.or_eq_true] at hc
  rcases hc with hc | hc
  · unfold wordAllDigits at hc
    rw [Bool.and_eq_true] at hc
    exact sepCamel_notlow_pref
      (fun c hcm => digit_not_lowerAZ (List.all_eq_true.mp hc.2 c hcm)) l
  · rcases wordTitleCased_elim hc with ⟨c, cs, rfl, hcu, hcs⟩
    rw [List.cons_append, sepCamel_cons_notlow (upper_not_lowerAZ hcu)]
    rw [sepCamel_lowers_pref hcs hb]
    rfl

theorem sepCamel_join : ∀ ws : List (List Char),
    (∀ u ∈ ws, isCanonWord u = true) → sepCamel (joinWords ws) = joinWords ws := by
  intro ws
  induction ws with
  | nil => intro _; rfl
  | cons u rest ih =>
    intro h
    have hu := h u (List.mem_cons_self u rest)
    cases rest with
    | nil =>
      show sepCamel u = u
      have h0 : sepCamel ([] : List Char) = [] := rfl
      have := sepCamel_word_pref hu (l := []) (fun b l' hb => by cases hb)
      simpa [h0] using this
    | cons v rest' =>
      rw [joinWords_cons₂]
      rw [sepCamel_word_pref hu (l := ' ' :: joinWords (v :: rest'))
        (fun b l' hb => by
          rw [List.cons.injEq] at hb
          rw [← hb.1]
          decide)]
      rw [sepCamel_cons_notlow (by decide : isLowerAZ ' ' = false)]
      rw [ih (fun w hw => h w (List.mem_cons_of_mem u hw))]

theorem canonWord_cases {u : List Char} (h : isCanonWord u = true) :
    ((∀ c ∈ u, isDigitChar c = true) ∧ u ≠ []) ∨
    ∃ c cs, u = c :: cs ∧ isUpperChar c = true ∧
      ∀ x ∈ cs, isLowerLetterChar x = true := by
  unfold isCanonWord at h
  rw [Bool.or_eq_true] at h
  rcases h with h | h
  · unfold wordAllDigits at h
    rw [Bool.and_eq_true] at h
    exact Or.inl ⟨fun c hc => List.all_eq_true.mp h.2 c hc, by simpa using h.1⟩
  · exact Or.inr (wordTitleCased_elim h)

/-- After upper-separation and number-separation, a canonically-shaped
string decomposes into exactly its original words. -/
theorem midwords_join : ∀ ws : List (List Char),
    (∀ u ∈ ws, isCanonWord u = true) →
    wordsOf (sepNumbers (sepUpper (joinWords ws))) = ws := by
  intro ws
  induction ws with
  | nil => intro _; exact wordsOf_nil
  | cons u rest ih =>
    intro h
    have hu := h u (List.mem_cons_self u rest)
    have hnotws := canonWord_notWS hu
    have hspace : isWSChar ' ' = true := by decide
    cases rest with
    | nil =>
      show wordsOf (sepNumbers (sepUpper u)) = [u]
      rcases canonWord_cases hu with ⟨hd, hne⟩ | ⟨c, cs, rfl, hcu, hcs⟩
      · have hup : sepUpper u = u :=
          sepUpper_id (fun c hc => digit_not_upper (hd c hc))
        rw [hup]
        unfold sepNumbers
        have hsn := sepNum_digit_word hne hd (l := []) (Or.inl rfl)
        have h0 : sepNumAux .outN ([] : List Char) = [] := rfl
        rw [(by simpa [h0] using hsn : sepNumAux .outN u = ' ' :: u ++ [' '])]
        rw [List.cons_append, wordsOf_cons_ws hspace]
        rw [wordsOf_word_sep hne hnotws, wordsOf_nil]
      · have hup : sepUpper (c :: cs) = ' ' :: c :: cs := by
          rw [sepUpper_cons_upper hcu]
          rw [sepUpper_id (fun x hx => lower_not_upper (hcs x hx))]
        rw [hup]
        unfold sepNumbers
        have hnd : ∀ x ∈ ' ' :: c :: cs, isDigitChar x = false := by
          intro x hx
          rcases List.mem_cons.mp hx with rfl | hx'
          · decide
          · rcases List.mem_cons.mp hx' with rfl | hx''
            · exact letter_not_digit (upper_letter hcu)
            · exact letter_not_digit (lower_letter (hcs x hx''))
        have h0 : sepNumAux .outN ([] : List Char) = [] := rfl
        have hsn := sepNum_nodigit_pref hnd (l := [])
        rw [(by simpa [h0] using hsn : sepNumAux .outN (' ' :: c :: cs) = ' ' :: c :: cs)]
        rw [wordsOf_cons_ws hspace]
        exact wordsOf_word_end (by simp) hnotws
    | cons v rest' =>
      have hrest := fun w hw => h w (List.mem_cons_of_mem u hw)
      have hih := ih hrest
      rw [joinWords_cons₂]
      rw [sepUpper_append]
      rw [sepUpper_cons_notupper (by decide : isUpperChar ' ' = false)]
      rcases canonWord_cases hu with ⟨hd, hne⟩ | ⟨c, cs, rfl, hcu, hcs⟩
      · have hup : sepUpper u = u :=
          sepUpper_id (fun c hc => digit_not_upper (hd c hc))
        rw [hup]
        unfold sepNumbers
        have hsn := sepNum_digit_word hne hd
          (l := ' ' :: sepUpper (joinWords (v :: rest')))
          (Or.inr ⟨' ', _, rfl, by decide, by decide⟩)
        rw [hsn]
        rw [sepNumAux_outN_nondigit (by decide : isDigitChar ' ' = false)]
        rw [List.cons_append, wordsOf_cons_ws hspace]
        rw [wordsOf_word_sep hne hnotws]
        rw [wordsOf_cons_ws hspace]
        exact congrArg (u :: ·) hih
      · have hup : sepUpper (c :: cs) = ' ' :: c :: cs := by
          rw [sepUpper_cons_upper hcu]
          rw [sepUpper_id (fun x hx => lower_not_upper (hcs x hx))]
        rw [hup]
        unfold sepNumbers
        have hnd : ∀ x ∈ ' ' :: c :: cs, isDigitChar x = false := by
          intro x hx
          rcases List.mem_cons.mp hx with rfl | hx'
          · decide
          · rcases List.mem_cons.mp hx' with rfl | hx''
            · exact letter_not_digit (upper_letter hcu)
            · exact letter_not_digit (lower_letter (hcs x hx''))
        have hsn := sepNum_nodigit_pref hnd
          (l := ' ' :: sepUpper (joinWords (v :: rest')))
        rw [(by simpa using hsn :
          sepNumAux .outN ((' ' :: c :: cs) ++ ' ' :: sepUpper (joinWords (v :: rest'))) =
            (' ' :: c :: cs) ++ ' ' :: sepNumAux .outN (sepUpper (joinWords (v :: rest'))))]
        rw [List.cons_append, wordsOf_cons_ws hspace]
        rw [wordsOf_word_sep (by simp) hnotws]
        exact congrArg ((c :: cs) :: ·) hih

/-- Fixed point: the cleaning pipeline leaves a canonically-shaped
string (space-joined all-digit or titlecased-letter words) unchanged. -/
theorem cleanValue_canonical_fixed (pinyin : List Char → List Char)
    {ws : List (List Char)} (h : ∀ u ∈ ws, isCanonWord u = true) :
    cleanValue pinyin (joinWords ws) = joinWords ws := by
  have hplain := canonWords_chars h
  have hnoCJK : containsChinese (joinWords ws) = false := by
    unfold containsChinese
    rw [List.any_eq_false]
    intro x hx
    rw [plain_not_cjk (hplain x hx)]
    simp
  show toTitle (stripWS (collapseWS (replaceSpecial (sepNumbers (sepUpper (sepCamel
    (if !(joinWords ws).isEmpty && containsChinese (joinWords ws)
     then pinyin (joinWords ws) else joinWords ws))))))) = joinWords ws
  rw [hnoCJK, Bool.and_false]
  simp only [Bool.false_eq_true, if_false]
  rw [sepCamel_join ws h]
  have hmidplain : ∀ x ∈ sepNumbers (sepUpper (joinWords ws)), isPlainChar x = true := by
    intro x hx
    unfold sepNumbers at hx
    have hdot : ∀ c ∈ sepUpper (joinWords ws), c ≠ '.' := by
      intro c hc
      rcases mem_sepUpper _ c hc with rfl | hm
      · decide
      · exact plain_not_dot (hplain c hm)
    rcases (sepNum_chars hdot).1 x hx with rfl | hm
    · exact space_plain
    · rcases mem_sepUpper _ x hm with rfl | hm2
      · exact space_plain
      · exact hplain x hm2
  rw [replaceSpecial_id hmidplain]
  rw [strip_collapse_eq_join (sepNumbers (sepUpper (joinWords ws))).length _ le_rfl]
  rw [midwords_join ws h]
  rw [toTitle_join ws (fun u hu => canonWord_homog (h u hu))]
  rw [List.map_congr_left (fun u hu => titlecaseWord_canon_fix (h u hu))]
  simp

/-- Canonicalization: on plain input (letters, digits, spaces) the
cleaning pipeline produces a canonically-shaped string. -/
theorem cleanValue_plain_canonical (pinyin : List Char → List Char)
    {s : List Char} (h : ∀ c ∈ s, isPlainChar c = true) :
    ∃ ws, (∀ u ∈ ws, isCanonWord u = true) ∧
      cleanValue pinyin s = joinWords ws := by
  have hnoCJK : containsChinese s = false := by
    unfold containsChinese
    rw [List.any_eq_false]
    intro x hx
    rw [plain_not_cjk (h x hx)]
    simp
  have h2 : ∀ x ∈ sepUpper (sepCamel s), isPlainChar x = true := by
    intro x hx
    rcases mem_sepUpper _ x hx with rfl | hm
    · exact space_plain
    · rcases mem_sepCamel _ x hm with rfl | hm2
      · exact space_plain
      · exact h x hm2
  have hdot : ∀ c ∈ sepUpper (sepCamel s), c ≠ '.' := by
    intro c hc
    exact plain_not_dot (h2 c hc)
  have h3 : ∀ x ∈ sepNumbers (sepUpper (sepCamel s)), isPlainChar x = true := by
    intro x hx
    unfold sepNumbers at hx
    rcases (sepNum_chars hdot).1 x hx with rfl | hm
    · exact space_plain
    · exact h2 x hm
  have hchain : List.Chain' sepOK (sepNumbers (sepUpper (sepCamel s))) :=
    (sepNum_chain hdot).1.1
  have hwprop := wordsOf_prop (sepNumbers (sepUpper (sepCamel s))).length _ le_rfl
  have hwinf := wordsOf_inf (sepNumbers (sepUpper (sepCamel s))).length _ le_rfl
  have hhomog : ∀ u ∈ wordsOf (sepNumbers (sepUpper (sepCamel s))), u ≠ [] ∧
      ((∀ c ∈ u, isDigitChar c = true) ∨ (∀ c ∈ u, isLetterChar c = true)) := by
    intro u hu
    have hprop := hwprop u hu
    have hsub : ∀ c ∈ u, c ∈ sepNumbers (sepUpper (sepCamel s)) := by
      intro c hc
      exact (hwinf u hu).sublist.subset hc
    refine ⟨hprop.1, ?_⟩
    apply word_homogeneous u hprop.1
    · intro c hc
      have hp := h3 c (hsub c hc)
      have hnws := hprop.2 c hc
      rw [isPlainChar] at hp
      rw [Bool.or_eq_true, Bool.or_eq_true] at hp
      rcases hp with (hl | hd) | hsp
      · exact Or.inl hl
      · exact Or.inr hd
      · exfalso
        have : c = ' ' := by simpa using hsp
        rw [this] at hnws
        cases hnws
    · exact hchain.infix (hwinf u hu)
    · intro c hc hceq
      have hnws := hprop.2 c hc
      rw [hceq] at hnws
      cases hnws
  refine ⟨(wordsOf (sepNumbers (sepUpper (sepCamel s)))).map titlecaseWord, ?_, ?_⟩
  · intro u hu
    rcases List.mem_map.mp hu with ⟨w, hw, rfl⟩
    exact titlecaseWord_isCanon (hhomog w hw).1 (hhomog w hw).2
  · show toTitle (stripWS (collapseWS (replaceSpecial (sepNumbers (sepUpper (sepCamel
      (if !s.isEmpty && containsChinese s then pinyin s else s))))))) = _
    rw [hnoCJK, Bool.and_false]
    simp only [Bool.false_eq_true, if_false]
    rw [replaceSpecial_id h3]
    rw [strip_collapse_eq_join (sepNumbers (sepUpper (sepCamel s))).length _ le_rfl]
    rw [toTitle_join _ hhomog]

/-- C8 (amended): the text-cleaning pipeline is idempotent on every
value consisting only of Latin/Cyrillic letters, digits and spaces:
cleaning the already-cleaned value returns it unchanged.  (It is not
idempotent on arbitrary values: characters outside the replaced
punctuation set, such as `=`, survive cleaning and make the title-case
and uppercase-separation passes disagree between the first and second
run.) -/
theorem c8_cleaning_idempotent_on_plain (pinyin : List Char → List Char)
    (s : List Char) (h : ∀ c ∈ s, isPlainChar c = true) :
    cleanValue pinyin (cleanValue pinyin s) = cleanValue pinyin s := by
  obtain ⟨ws, hcanon, heq⟩ := cleanValue_plain_canonical pinyin h
  rw [heq]
  exact cleanValue_canonical_fixed pinyin hcanon

/-- Witness for C8 at a concrete plain value. -/
theorem c8_cleaning_idempotent_on_plain_witness :
    cleanValue id (cleanValue id ('e' :: 'n' :: 'g' :: 'i' :: 'n' :: 'e' :: 'M' ::
      'o' :: 'u' :: 'n' :: 't' :: ' ' :: '1' :: '2' :: [])) =
    cleanValue id ('e' :: 'n' :: 'g' :: 'i' :: 'n' :: 'e' :: 'M' ::
      'o' :: 'u' :: 'n' :: 't' :: ' ' :: '1' :: '2' :: []) :=
  c8_cleaning_idempotent_on_plain id _ (by decide)

/-- Counterexample to C8 as stated: the value `"=a"` cleans to `"=A"`,
but cleaning the already-cleaned `"=A"` yields `"= A"` — the `=` is not
replaced, titlecasing capitalizes the letter after it, and the second
run's uppercase-separation pass then inserts a space. -/
theorem c8_counterexample :
    cleanValue id ('=' :: 'a' :: []) = '=' :: 'A' :: [] ∧
    cleanValue id (cleanValue id ('=' :: 'a' :: [])) = '=' :: ' ' :: 'A' :: [] ∧
    cleanValue id (cleanValue id ('=' :: 'a' :: [])) ≠ cleanValue id ('=' :: 'a' :: []) := by
  decide

end MftDb
